import Mathlib

/-!
# Verification of the sp-backend silent-payments wallet core

A shallow embedding of `src/spclient.rs` (the BIP-352 wallet core of
cygnet3/sp-backend) and proofs about it.

Modelling conventions, used throughout:

* Machine integers are `Nat` with explicit wraparound where the Rust
  arithmetic can overflow: `u64`/`u32` additions, subtractions and
  multiplications that the source performs on primitive integers wrap
  (release-profile semantics, the profile shipped applications run);
  places where the source instead uses `checked_sub().expect(..)`
  (`bitcoin::Amount` subtraction) panic in every profile and are
  modelled as errors.
* Rust panics (slice/vec index panics, `unwrap`/`expect` on garbage
  data, `Amount` underflow, `debug_assert!` in the debug profile) are
  modelled as `Except.error` values with dedicated constructors, so a
  failing run is observable.
* `String`-typed data that the source only ever parses (addresses,
  out-point strings, hex tweaks, hex scripts) is modelled by its parse
  image: an address string by the outcome of
  `SilentPaymentAddress::try_from` / `Address::from_str`
  (inductive `AddrParse`), an out-point string by the `OutPoint` it
  denotes, a hex tweak by its decoded byte list, a hex script by its
  decoded byte list.  Txids and block hashes are abstracted to `Nat`
  (their display strings are injective images of the values).
* `anyhow` error strings are mapped to the constructors of `SpErr`;
  each constructor's comment quotes the original message.
* The external `silentpayments` crate functions used by
  `fill_sp_outputs` (`calculate_partial_secret`,
  `generate_recipient_pubkeys`) are not code of this repository; the
  embedding takes them as a parameter (`SpLib`), so every theorem holds
  for any behaviour of the library.
* `crate::constants` is not among the staged source files; its
  constants are modelled from the spec (see the individual comments).
* The persistence collaborator (`FileWriter`, `crate::db`) and the
  stream sinks (`crate::stream`) are external; a save is modelled as
  succeeding and an emitted amount update is returned as a value.
-/

namespace SpBackend

/-! ## Machine arithmetic -/

/-- `2 ^ 64`, the modulus of Rust's `u64`. -/
def U64 : Nat := 18446744073709551616

/-- `2 ^ 32`, the modulus of Rust's `u32`. -/
def U32 : Nat := 4294967296

/-- Wrapping `u64` addition (release-profile semantics of `a + b`). -/
def u64add (a b : Nat) : Nat := (a + b) % U64

/-- Wrapping `u64` subtraction (release-profile semantics of `a - b`,
for operands already reduced below `2 ^ 64`). -/
def u64sub (a b : Nat) : Nat := (a + U64 - b % U64) % U64

/-- The order of the secp256k1 group: scalars and secret keys live in
`[0, curveOrder)` (secret keys in `[1, curveOrder)`). -/
def curveOrder : Nat :=
  115792089237316195423570985008687907852837564279074904382605163141518161494337

/-! ## Byte strings -/

/-- A byte string; each entry is one byte (`0 ≤ b < 256`). -/
abbrev Bytes := List Nat

/-- Big-endian bytes to `Nat` (`secp256k1::Scalar::from_be_bytes` view). -/
def beBytesToNat (b : Bytes) : Nat := b.foldl (fun acc x => acc * 256 + x) 0

/-- `Scalar::to_be_bytes`: the 32 big-endian bytes of a scalar. -/
def natToBeBytes32 (n : Nat) : Bytes :=
  (List.range 32).map (fun j => n / 256 ^ (31 - j) % 256)

/-- Structural worker for `bytesOfNat` (fuel recursion, so terms
reduce definitionally; fuel `n` always suffices since the value
shrinks by a factor of 256 each step). -/
def bytesOfNatAux : Nat → Nat → Bytes
  | 0, _ => []
  | _ + 1, 0 => []
  | fuel + 1, n + 1 => (n + 1) % 256 :: bytesOfNatAux fuel ((n + 1) / 256)

/-- Little-endian byte rendering of a `Nat`, with no trailing zero:
the canonical form `bytesOfNat` produces and `deserializeSpAddress`
recognises. -/
def bytesOfNat (n : Nat) : Bytes := bytesOfNatAux n n

/-- Little-endian bytes back to `Nat`. -/
def natOfBytes : Bytes → Nat
  | [] => 0
  | b :: rest => b + 256 * natOfBytes rest

/-! ## Constants (`crate::constants`, not among the staged files)

Modelled from the spec: §6 fixes the proprietary-record prefix to the
ASCII bytes of `"sp"`, the subtype to `0` and the keys to `"tweak"` and
`"address"`; it leaves `DUST_THRESHOLD` implementation-chosen and names
`NUMS` as the BIP-341 NUMS x-only point. -/

/-- Modelled from the spec: `DUST_THRESHOLD` (§6, "implementation
chosen"); fixed here at 1000 sats.  Every statement below holds for any
positive choice. -/
def DUST_THRESHOLD : Nat := 1000

/-- Modelled from the spec: `NUMS`, the BIP-341 NUMS x-only point used
as placeholder taproot key (§6). -/
def NUMS : Nat :=
  0x50929b74c1a04954b78b4b6035e97a5e078a5a0f28ec96d547bfee9ace803ac0

/-- Modelled from the spec: `PSBT_SP_PREFIX = "sp"` as bytes (§6). -/
def PSBT_SP_PREFIX : Bytes := [115, 112]

/-- Modelled from the spec: `PSBT_SP_SUBTYPE = 0` (§6). -/
def PSBT_SP_SUBTYPE : Nat := 0

/-- Modelled from the spec: `PSBT_SP_TWEAK_KEY = "tweak"` as bytes (§6). -/
def PSBT_SP_TWEAK_KEY : Bytes := [116, 119, 101, 97, 107]

/-- Modelled from the spec: `PSBT_SP_ADDRESS_KEY = "address"` as bytes (§6). -/
def PSBT_SP_ADDRESS_KEY : Bytes := [97, 100, 100, 114, 101, 115, 115]

/-! ## Association lists

`HashMap` / `BTreeMap` / the `HashMap<String, Vec<XOnlyPublicKey>>` of
`generate_recipient_pubkeys` are modelled as association lists. -/

/-- `map.get(k)`. -/
def assocGet {α β : Type} [DecidableEq α] : List (α × β) → α → Option β
  | [], _ => none
  | p :: rest, k => if p.1 = k then some p.2 else assocGet rest k

/-- In-place update of the value at `k` (the effect of mutating through
`get_mut(k)`); entries for other keys are untouched. -/
def assocUpdate {α β : Type} [DecidableEq α] (m : List (α × β)) (k : α) (f : β → β) :
    List (α × β) :=
  m.map (fun p => if p.1 = k then (p.1, f p.2) else p)

/-! ## Addresses -/

/-- A silent-payment address as `SilentPaymentAddress` exposes it: its
network flag and an abstract identity standing for the
`(scan_pub, spend_pub, label)` payload.  Two address strings parse
equal exactly when their models are equal. -/
structure SpAddress where
  is_testnet : Bool
  id : Nat
deriving DecidableEq, Repr

/-- The parse image of an address string: a silent-payment address
(`SilentPaymentAddress::try_from` succeeds), an on-chain address
(`try_from` fails, `Address::from_str` succeeds — carrying the network
flag `network() != Bitcoin` and the `script_pubkey()`), or garbage
(both parses fail). -/
inductive AddrParse where
  | sp (a : SpAddress)
  | onchain (is_testnet : Bool) (spk : Bytes)
  | invalid
deriving DecidableEq, Repr

/-- `serialize(&sp_address.to_string())`: the bytes the source stores
as proprietary address record.  Modelled as an injective encoding of
the parsed address: a network tag byte followed by the canonical
little-endian bytes of the identity. -/
def serializeSpAddress (a : SpAddress) : Bytes :=
  (if a.is_testnet then 1 else 0) :: bytesOfNat a.id

/-- `SilentPaymentAddress::try_from(deserialize::<String>(value))`:
recovers the address from a record value, `none` when the bytes are
not an encoding `serializeSpAddress` produces. -/
def deserializeSpAddress : Bytes → Option SpAddress
  | [] => none
  | t :: rest =>
    if (t = 0 ∨ t = 1) ∧ bytesOfNat (natOfBytes rest) = rest then
      some ⟨t = 1, natOfBytes rest⟩
    else none

/-! ## Bitcoin transactions -/

/-- `bitcoin::OutPoint` (txid abstracted to its numeric value). -/
structure OutPoint where
  txid : Nat
  vout : Nat
deriving DecidableEq, Repr

/-- `bitcoin::TxIn`. -/
structure TxIn where
  previous_output : OutPoint
  script_sig : Bytes
  sequence : Nat
  witness : List Bytes
deriving DecidableEq, Repr

/-- `bitcoin::TxOut` (`value` in sats, a `u64`). -/
structure TxOut where
  value : Nat
  script_pubkey : Bytes
deriving DecidableEq, Repr

/-- `bitcoin::Transaction`. -/
structure Transaction where
  version : Int
  lock_time : Nat
  input : List TxIn
  output : List TxOut
deriving DecidableEq, Repr

/-- `ScriptBuf::new_p2tr_tweaked(key)`: `OP_PUSHNUM_1 OP_PUSHBYTES_32`
followed by the 32 x-only key bytes. -/
def p2trScript (xonly : Nat) : Bytes := 81 :: 32 :: natToBeBytes32 xonly

/-- The placeholder script of `create_new_psbt`:
`new_p2tr_tweaked(NUMS)`. -/
def placeholder_spk : Bytes := p2trScript NUMS

/-! ### Transaction size and vsize (rust-bitcoin serialization) -/

/-- The serialized size of a Bitcoin `VarInt`. -/
def varintLen (n : Nat) : Nat :=
  if n < 253 then 1 else if n < 65536 then 3 else if n < 4294967296 then 5 else 9

/-- Base (non-witness) serialized size of one input:
outpoint (36) + script length prefix + script + sequence (4). -/
def txInBaseSize (i : TxIn) : Nat :=
  36 + varintLen i.script_sig.length + i.script_sig.length + 4

/-- Serialized size of one output: value (8) + script length prefix + script. -/
def txOutSize (o : TxOut) : Nat :=
  8 + varintLen o.script_pubkey.length + o.script_pubkey.length

/-- Serialized size of one input's witness stack. -/
def witnessSize (w : List Bytes) : Nat :=
  varintLen w.length + (w.map (fun item => varintLen item.length + item.length)).sum

/-- `Transaction::base_size`: the size serialized without witnesses. -/
def txBaseSize (tx : Transaction) : Nat :=
  4 + varintLen tx.input.length + (tx.input.map txInBaseSize).sum
    + varintLen tx.output.length + (tx.output.map txOutSize).sum + 4

/-- `Transaction::total_size`: with marker, flag and witnesses when any
input carries a non-empty witness. -/
def txTotalSize (tx : Transaction) : Nat :=
  if tx.input.any (fun i => !i.witness.isEmpty) then
    txBaseSize tx + 2 + (tx.input.map (fun i => witnessSize i.witness)).sum
  else txBaseSize tx

/-- `Transaction::weight`: `3 · base_size + total_size`. -/
def txWeight (tx : Transaction) : Nat := 3 * txBaseSize tx + txTotalSize tx

/-- `Transaction::vsize`: weight in vbytes, rounded up. -/
def txVsize (tx : Transaction) : Nat := (txWeight tx + 3) / 4

/-! ## PSBT -/

/-- `bitcoin::psbt::raw::ProprietaryKey`. -/
structure ProprietaryKey where
  pfx : Bytes
  subtype : Nat
  key : Bytes
deriving DecidableEq, Repr

/-- The per-input tweak record key `{ "sp", 0, "tweak" }`. -/
def spTweakKey : ProprietaryKey :=
  ⟨PSBT_SP_PREFIX, PSBT_SP_SUBTYPE, PSBT_SP_TWEAK_KEY⟩

/-- The per-output address record key `{ "sp", 0, "address" }`. -/
def spAddressKey : ProprietaryKey :=
  ⟨PSBT_SP_PREFIX, PSBT_SP_SUBTYPE, PSBT_SP_ADDRESS_KEY⟩

/-- A PSBT proprietary map. -/
abbrev PropMap := List (ProprietaryKey × Bytes)

/-- `bitcoin::psbt::Input`, restricted to the fields this code base
reads or writes (`witness_utxo`, `proprietary`, `tap_key_sig`,
`final_script_witness`); the remaining fields are never set by this
code and default to empty. -/
structure PsbtInput where
  witness_utxo : Option TxOut
  proprietary : PropMap
  tap_key_sig : Option Bytes
  final_script_witness : Option (List Bytes)
deriving DecidableEq, Repr

/-- `bitcoin::psbt::Output`, restricted to the one field this code
base uses. -/
structure PsbtOutput where
  proprietary : PropMap
deriving DecidableEq, Repr

/-- `bitcoin::psbt::Psbt`. -/
structure Psbt where
  unsigned_tx : Transaction
  inputs : List PsbtInput
  outputs : List PsbtOutput
deriving DecidableEq, Repr

/-- `Input::default()`. -/
def defaultPsbtInput : PsbtInput :=
  { witness_utxo := none, proprietary := [], tap_key_sig := none,
    final_script_witness := none }

/-- `Output::default()`. -/
def defaultPsbtOutput : PsbtOutput := { proprietary := [] }

/-! ## Wallet state -/

/-- `OutputSpendStatus` (the spending txid / block hash strings are
abstracted to the hashes they display). -/
inductive OutputSpendStatus where
  | Unspent
  | Spent (txid : Nat)
  | Mined (blkhash : Nat)
deriving DecidableEq, Repr

/-- `OwnedOutput`; the string fields are modelled by their parse
images (`txoutpoint` by the out-point it denotes, `tweak` and `script`
by their hex-decoded bytes). -/
structure OwnedOutput where
  txoutpoint : OutPoint
  blockheight : Nat
  tweak : Bytes
  amount : Nat
  script : Bytes
  label : Option String
  spend_status : OutputSpendStatus
deriving DecidableEq, Repr

/-- `Recipient`; the address string is modelled by its parse image. -/
structure Recipient where
  address : AddrParse
  amount : Nat
  nb_outputs : Nat
deriving DecidableEq, Repr

/-- `SpendKey`: a secret scalar or a watch-only public key (the public
point abstracted to a `Nat`). -/
inductive SpendKey where
  | Secret (key : Nat)
  | Public (key : Nat)
deriving DecidableEq, Repr

/-- `silentpayments::receiving::Receiver`, restricted to what the code
reads: the network flag and the change address
(`get_change_address()` modelled by its parse image). -/
structure Receiver where
  is_testnet : Bool
  change_address : SpAddress
deriving DecidableEq, Repr

/-- The owned-output store: `HashMap<OutPoint, OwnedOutput>`. -/
abbrev OwnedMap := List (OutPoint × OwnedOutput)

/-- `SpClient` (the `FileWriter` is an external collaborator and is
not part of the modelled state). -/
structure SpClient where
  label : String
  scan_sk : Nat
  spend_key : SpendKey
  mnemonic : Option String
  sp_receiver : Receiver
  birthday : Nat
  last_scan : Nat
  owned : OwnedMap
deriving DecidableEq, Repr

/-! ## Errors

Structured stand-ins for the source's `anyhow` messages and panics;
each constructor's comment quotes the original. -/

/-- The failure values (and modelled panics) of the embedded code. -/
inductive SpErr where
  /-- "Watch-only wallet, can't spend" -/
  | WatchOnly
  /-- "Invalid tweak at input {i}" (record present, not 32 bytes) -/
  | InvalidTweak (i : Nat)
  /-- "Missing tweak at input {i}" -/
  | MissingTweak (i : Nat)
  /-- `Scalar::from_be_bytes` out-of-range error -/
  | ScalarOutOfRange
  /-- `SecretKey::add_tweak` failure (result not a valid key) -/
  | InvalidSecretKey
  /-- hex decode of a stored string failed (`FromHex` / `from_hex`) -/
  | HexError
  /-- an error of the external `silentpayments` library -/
  | LibError
  /-- `deserialize::<String>` / `SilentPaymentAddress::try_from` failed
  on a proprietary address record inside `fill_sp_outputs` -/
  | BadAddressRecord
  /-- "We're missing a key for address {addr}" -/
  | MissingKeyForAddress
  /-- "Can't find address {addr}" -/
  | AddressNotFound
  /-- `debug_assert!(xonlypubkeys.is_empty())` fired (debug profile) -/
  | AssertionFailed
  /-- "Payer is not part of this transaction" -/
  | PayerNotInTx
  /-- "Missing a change output" -/
  | MissingChange
  /-- `iter_funding_utxos`: an input has no funding utxo -/
  | MissingUtxo
  /-- "no payer vout" -/
  | NoPayerVout
  /-- panic: `.unwrap()` on a garbage address record in `set_fees` -/
  | DeserializePanic
  /-- panic: `bitcoin::Amount` subtraction underflow -/
  | AmountSubPanic
  /-- panic: slice/vec index out of bounds (or the length assertion of
  `iter_funding_utxos`) -/
  | IndexPanic
  /-- "Wrong network for address {addr}" -/
  | WrongNetwork
  /-- `Address::from_str` failed on a garbage address string -/
  | InvalidAddress
  /-- "owned outpoint is already spent" -/
  | AlreadySpent
  /-- "owned outpoint is already mined" -/
  | AlreadyMined
  /-- "owned outpoint not found" -/
  | NotFound
  /-- panic: "Missing signature" in `finalize_psbt` -/
  | MissingSignature
deriving DecidableEq, Repr

/-! ## Owned-output operations (`SpClient` methods) -/

/-- `get_spendable_amt`: fold of the amounts of the `Unspent` values. -/
def get_spendable_amt (owned : OwnedMap) : Nat :=
  ((owned.map (·.2)).filter (fun x => x.spend_status = .Unspent)).foldl
    (fun acc x => acc + x.amount) 0

/-- `get_unconfirmed_amt`: fold of the amounts of the `Spent` values. -/
def get_unconfirmed_amt (owned : OwnedMap) : Nat :=
  ((owned.map (·.2)).filter (fun x => match x.spend_status with
    | .Spent _ => true
    | _ => false)).foldl (fun acc x => acc + x.amount) 0

/-- `mark_outpoint_spent(outpoint, txid)`: on the `Unspent` status the
entry's status becomes `Spent(txid)`; any other status is
`AlreadySpent`, an absent entry `NotFound`.  Returns the updated map
(the source mutates `self.owned` through `get_mut`). -/
def mark_outpoint_spent (owned : OwnedMap) (outpoint : OutPoint) (txid : Nat) :
    Except SpErr OwnedMap :=
  match assocGet owned outpoint with
  | some o =>
    match o.spend_status with
    | .Unspent =>
      .ok (assocUpdate owned outpoint (fun x => { x with spend_status := .Spent txid }))
    | _ => .error .AlreadySpent
  | none => .error .NotFound

/-- `mark_outpoint_mined(outpoint, blkhash)`: any status but `Mined`
becomes `Mined(blkhash)`; `Mined` is `AlreadyMined`, an absent entry
`NotFound`. -/
def mark_outpoint_mined (owned : OwnedMap) (outpoint : OutPoint) (blkhash : Nat) :
    Except SpErr OwnedMap :=
  match assocGet owned outpoint with
  | some o =>
    match o.spend_status with
    | .Mined _ => .error .AlreadyMined
    | _ =>
      .ok (assocUpdate owned outpoint (fun x => { x with spend_status := .Mined blkhash }))
  | none => .error .NotFound

/-- A `nakamoto::chain::Transaction` as `mark_transaction_inputs_as_spent`
reads it: its txid (`tx.txid()`, abstracted to the hash value) and the
`previous_output` of each input. -/
structure NkTx where
  txid : Nat
  input : List OutPoint
deriving DecidableEq, Repr

/-- The loop of `mark_transaction_inputs_as_spent`:
`for input in tx.input { self.mark_outpoint_spent(input.previous_output, txid)?; }`.
`self` is `&mut`, so on an error the entries already marked stay
marked: the result is the in-memory map after the loop together with
the error, if any. -/
def markInputsLoop (owned : OwnedMap) (txid : Nat) :
    List OutPoint → OwnedMap × Option SpErr
  | [] => (owned, none)
  | op :: rest =>
    match mark_outpoint_spent owned op txid with
    | .ok owned' => markInputsLoop owned' txid rest
    | .error e => (owned, some e)

/-- `mark_transaction_inputs_as_spent(tx)`: the loop, then
`send_amount_update(self.get_spendable_amt())` and `save_to_disk()`.
The stream sink and the `FileWriter` are external; the emitted amount
is returned as a value (`none` when the loop erred before emitting)
and the save is modelled as succeeding.  The result is
`(in-memory owned map after the call, the error if any, the emitted amount)`. -/
def mark_transaction_inputs_as_spent (owned : OwnedMap) (tx : NkTx) :
    OwnedMap × Option SpErr × Option Nat :=
  match markInputsLoop owned tx.txid tx.input with
  | (m, some e) => (m, some e, none)
  | (m, none) => (m, none, some (get_spendable_amt m))

/-- `reset_from_blockheight(blockheight)`: keep exactly the entries
with `blockheight ≤ h` (statuses untouched), set `last_scan := h`. -/
def reset_from_blockheight (c : SpClient) (blockheight : Nat) : SpClient :=
  { c with
    owned := c.owned.filter (fun o => o.2.blockheight ≤ blockheight),
    last_scan := blockheight }

/-! ## `create_new_psbt` -/

/-- The `TxIn` pushed for one chosen input: `sequence = 0xFFFFFFFF`,
empty `script_sig` and witness. -/
def mkTxInFromOwned (i : OwnedOutput) : TxIn :=
  { previous_output := i.txoutpoint, script_sig := [], sequence := 4294967295,
    witness := [] }

/-- `Scalar::from_be_bytes(FromHex::from_hex(&i.tweak)?)?`: the hex
string must decode to exactly 32 bytes (`[u8; 32]`), and the value
must lie below the curve order. -/
def scalarFromTweakHex (b : Bytes) : Except SpErr Nat :=
  if b.length = 32 then
    if beBytesToNat b < curveOrder then .ok (beBytesToNat b) else .error .ScalarOutOfRange
  else .error .HexError

/-- The input loop of `create_new_psbt`: builds the `TxIn` list, the
`(script_pubkey, amount, tweak_scalar)` list and the total input
amount (wrapping `u64` accumulation; the fold order is immaterial as
modular addition is commutative and associative). -/
def processInputs : List OwnedOutput →
    Except SpErr (List TxIn × List (Bytes × Nat × Nat) × Nat)
  | [] => .ok ([], [], 0)
  | i :: rest => do
    let scalar ← scalarFromTweakHex i.tweak
    let (tins, datas, tot) ← processInputs rest
    pure (mkTxInFromOwned i :: tins, (i.script, i.amount, scalar) :: datas,
      u64add i.amount tot)

/-- The output loop of `create_new_psbt`: one `TxOut` per recipient
(`nb_outputs` is never read here).  A silent-payment recipient must
match the wallet's network and gets the placeholder script; an
on-chain recipient must match the network and keeps its own script;
garbage fails `Address::from_str`. -/
def processRecipients (recv : Receiver) : List Recipient →
    Except SpErr (List TxOut × Nat)
  | [] => .ok ([], 0)
  | o :: rest => do
    let spk ←
      match o.address with
      | .sp spa =>
        if recv.is_testnet ≠ spa.is_testnet then Except.error .WrongNetwork
        else Except.ok placeholder_spk
      | .onchain t spk =>
        if recv.is_testnet ≠ t then Except.error .WrongNetwork
        else Except.ok spk
      | .invalid => Except.error .InvalidAddress
    let (touts, tot) ← processRecipients recv rest
    pure (⟨o.amount, spk⟩ :: touts, u64add o.amount tot)

/-- The recipient list after the change step: when the wrapped change
amount exceeds `DUST_THRESHOLD`, the change `Recipient`
`{change_address, change_amt, 1}` is pushed. -/
def finalRecipients (recv : Receiver) (recipients : List Recipient) (change_amt : Nat) :
    List Recipient :=
  if change_amt > DUST_THRESHOLD then
    recipients ++ [⟨.sp recv.change_address, change_amt, 1⟩]
  else recipients

/-- `create_new_psbt(inputs, recipients)`.

`change_amt = total_input_amount - total_output_amount` is primitive
`u64` subtraction: it wraps when the outputs exceed the inputs (the
debug profile would panic); there is no `InsufficientFunds` or
`DustChange` failure in the source.  The PSBT is built by
`Psbt::from_unsigned_tx` (all maps default) and then every
`psbt.inputs[i]` is replaced by a fresh `Input` carrying the
`witness_utxo` and the tweak record, and every `psbt.outputs[i]` whose
recipient is a silent-payment address by a fresh `Output` carrying the
address record; as the index loops cover every slot exactly once, the
replacement loops are rendered as maps over the parallel lists. -/
def create_new_psbt (c : SpClient) (inputs : List OwnedOutput)
    (recipients : List Recipient) : Except SpErr Psbt := do
  let (tx_in, inputs_data, total_input_amount) ← processInputs inputs
  let (outputs0, total_output_amount) ← processRecipients c.sp_receiver recipients
  let change_amt := u64sub total_input_amount total_output_amount
  let outputs :=
    if change_amt > DUST_THRESHOLD then
      outputs0 ++ [⟨change_amt, placeholder_spk⟩]
    else outputs0
  let recipients2 := finalRecipients c.sp_receiver recipients change_amt
  let tx : Transaction :=
    { version := 2, lock_time := 0, input := tx_in, output := outputs }
  let psbtInputs := inputs_data.map (fun d =>
    { witness_utxo := some ⟨d.2.1, d.1⟩,
      proprietary := [(spTweakKey, natToBeBytes32 d.2.2)],
      tap_key_sig := none, final_script_witness := none })
  let psbtOutputs := recipients2.map (fun r =>
    match r.address with
    | .sp spa => { proprietary := [(spAddressKey, serializeSpAddress spa)] }
    | _ => defaultPsbtOutput)
  pure { unsigned_tx := tx, inputs := psbtInputs, outputs := psbtOutputs }

/-! ## Finalization, fake signing, `set_fees` -/

/-- The per-input step of `finalize_psbt`: the input must carry a
`tap_key_sig` (the source panics with "Missing signature" otherwise,
modelled as an error); `final_script_witness` becomes the one-element
stack `[sig.to_vec()]` and the signing fields are cleared
(`tap_key_sig`; `partial_sigs`, `sighash_type`, `redeem_script`,
`witness_script`, `bip32_derivation` are not part of the modelled
record and are empty throughout). -/
def finalizeInput (i : PsbtInput) : Except SpErr PsbtInput :=
  match i.tap_key_sig with
  | some sig =>
    .ok { i with final_script_witness := some [sig], tap_key_sig := none }
  | none => .error .MissingSignature

/-- The iteration of `finalize_psbt` over the inputs. -/
def finalizeInputs : List PsbtInput → Except SpErr (List PsbtInput)
  | [] => .ok []
  | i :: rest => do
    let i' ← finalizeInput i
    let rest' ← finalizeInputs rest
    pure (i' :: rest')

/-- `finalize_psbt(psbt)`. -/
def finalize_psbt (psbt : Psbt) : Except SpErr Psbt := do
  let inputs ← finalizeInputs psbt.inputs
  pure { psbt with inputs := inputs }

/-- `Psbt::extract_tx`: the unsigned transaction with each input's
witness taken from `final_script_witness` (or empty).  The absurd-fee
check of rust-bitcoin cannot fire on the one call site (`set_fees`
reaches it only with fee = dust ≤ `DUST_THRESHOLD`, far below the
25000 sat/vB limit) and is not modelled. -/
def extract_tx (psbt : Psbt) : Transaction :=
  { psbt.unsigned_tx with
    input := psbt.unsigned_tx.input.zipWith
      (fun vin pin =>
        { vin with witness := pin.final_script_witness.getD [] })
      psbt.inputs }

/-- `sign_psbt_fake`: clone, give every input the 64-byte garbage
signature, finalize, extract. -/
def sign_psbt_fake (psbt : Psbt) : Except SpErr Transaction := do
  let fakeSig : Bytes := List.replicate 64 1
  let fake : Psbt :=
    { psbt with inputs := psbt.inputs.map (fun i => { i with tap_key_sig := some fakeSig }) }
  let fake ← finalize_psbt fake
  pure (extract_tx fake)

/-- The silent-payment branch of the payer resolution of `set_fees`:
indices of the outputs whose address record parses equal to the
payer.  A record that does not deserialize panics in the source
(`.unwrap()`), modelled as `DeserializePanic`. -/
def payerVoutsSp (spa : SpAddress) : List PsbtOutput → Nat → Except SpErr (List Nat)
  | [], _ => .ok []
  | o :: rest, i =>
    match assocGet o.proprietary spAddressKey with
    | some value =>
      match deserializeSpAddress value with
      | some cand => do
        let tail ← payerVoutsSp spa rest (i + 1)
        pure (if spa = cand then i :: tail else tail)
      | none => .error .DeserializePanic
    | none => payerVoutsSp spa rest (i + 1)

/-- The on-chain branch of the payer resolution: indices of the
unsigned-transaction outputs whose `script_pubkey` equals the payer's. -/
def payerVoutsSpk (spk : Bytes) : List TxOut → Nat → List Nat
  | [], _ => []
  | o :: rest, i =>
    if o.script_pubkey = spk then i :: payerVoutsSpk spk rest (i + 1)
    else payerVoutsSpk spk rest (i + 1)

/-- `iter_funding_utxos` summed: each input must carry a funding utxo
(this code base only ever sets `witness_utxo`); wrapping `u64`
accumulation of the values. -/
def iterFundingSum : List PsbtInput → Except SpErr Nat
  | [] => .ok 0
  | i :: rest =>
    match i.witness_utxo with
    | some u => do
      let s ← iterFundingSum rest
      pure (u64add u.value s)
    | none => .error .MissingUtxo

/-- The wrapped sum of the output values of a transaction. -/
def totalOutputAmt (outs : List TxOut) : Nat :=
  outs.foldl (fun sum o => u64add sum o.value) 0

/-- The payer resolution of `set_fees`: a parsed silent-payment payer
selects slots by address record, an on-chain payer selects
unsigned-transaction outputs by script pubkey, garbage fails
`Address::from_str`. -/
def resolvePayerVouts (psbt : Psbt) (payer : AddrParse) : Except SpErr (List Nat) :=
  match payer with
  | .sp sp_address => payerVoutsSp sp_address psbt.outputs 0
  | .onchain _ spk => .ok (payerVoutsSpk spk psbt.unsigned_tx.output 0)
  | .invalid => .error .InvalidAddress

/-- `set_fees(psbt, fee_rate, payer)`.

`pick` models the one draw of `thread_rng` behind
`payer_vouts.choose(&mut rng)`: the chosen index is
`payer_vouts[pick % payer_vouts.len()]`.

`dust = total_input_amt - total_output_amt` is primitive `u64`
subtraction (wraps when the outputs exceed the inputs, so that case
lands in `MissingChange`); `fee_amt = fee_rate * (vsize as u32)` is
wrapping `u32` multiplication, widened to `u64`; the deduction
`old_value - Amount::from_sat(fee_amt - dust)` is `bitcoin::Amount`
subtraction, which panics on underflow in every profile
(`AmountSubPanic`). -/
def set_fees (psbt : Psbt) (fee_rate : Nat) (payer : AddrParse) (pick : Nat) :
    Except SpErr Psbt := do
  let payer_vouts : List Nat ← resolvePayerVouts psbt payer
  if payer_vouts.isEmpty then
    Except.error .PayerNotInTx
  else do
  -- `iter_funding_utxos` asserts the two input lists have equal length
  if psbt.inputs.length ≠ psbt.unsigned_tx.input.length then
    Except.error .IndexPanic
  else do
  let total_input_amt ← iterFundingSum psbt.inputs
  let total_output_amt := totalOutputAmt psbt.unsigned_tx.output
  let dust := u64sub total_input_amt total_output_amt
  if dust > DUST_THRESHOLD then
    Except.error .MissingChange
  else do
  let fake ← sign_psbt_fake psbt
  let vsize := txVsize fake
  let fee_amt : Nat := fee_rate * (vsize % U32) % U32
  if fee_amt > dust then
    match payer_vouts.get? (pick % payer_vouts.length) with
    | some deduce_from =>
      match psbt.unsigned_tx.output.get? deduce_from with
      | some output =>
        if output.value < fee_amt - dust then
          Except.error .AmountSubPanic
        else
          let newOut := { output with value := output.value - (fee_amt - dust) }
          pure { psbt with unsigned_tx :=
            { psbt.unsigned_tx with
              output := psbt.unsigned_tx.output.set deduce_from newOut } }
      | none => Except.error .IndexPanic
    | none => Except.error .NoPayerVout
  else
    pure psbt

/-! ## `fill_sp_outputs` -/

/-- The two functions of the external `silentpayments` crate that
`fill_sp_outputs` calls.  They are not code of this repository, so the
embedding abstracts over them: every theorem below holds for any
behaviour of the library.  `calculate_partial_secret` takes the
`(key, is_taproot)` pairs and the `(txid, vout)` outpoints;
`generate_recipient_pubkeys` takes the address list (with
multiplicity) and the secret, and returns for each address its list of
x-only output keys. -/
structure SpLib where
  calculate_partial_secret :
    List (Nat × Bool) → List (Nat × Nat) → Except SpErr Nat
  generate_recipient_pubkeys :
    List SpAddress → Nat → Except SpErr (List (SpAddress × List Nat))

/-- The input loop of `fill_sp_outputs` (index `i` for the error
messages): each input must carry the tweak record, exactly 32 bytes;
the scalar must be in range, and `b_spend.add_tweak(&scalar)` must
yield a valid key; all inputs are pushed as taproot. -/
def collectInputPrivkeys (b_spend : Nat) : List PsbtInput → Nat →
    Except SpErr (List (Nat × Bool))
  | [], _ => .ok []
  | input :: rest, i =>
    match assocGet input.proprietary spTweakKey with
    | some tweak =>
      if tweak.length ≠ 32 then .error (.InvalidTweak i)
      else if beBytesToNat tweak < curveOrder then
        if (b_spend + beBytesToNat tweak) % curveOrder = 0 then
          .error .InvalidSecretKey
        else do
          let tail ← collectInputPrivkeys b_spend rest (i + 1)
          pure (((b_spend + beBytesToNat tweak) % curveOrder, true) :: tail)
      else .error .ScalarOutOfRange
    | none => .error (.MissingTweak i)

/-- The address-collection loop of `fill_sp_outputs`: the parsed
silent-payment address of every output slot carrying the address
record, in slot order (non-SP slots are skipped); a record that does
not deserialize is an error (`deserialize`/`try_from` with `?`). -/
def collectSpAddresses : List PsbtOutput → Except SpErr (List SpAddress)
  | [] => .ok []
  | o :: rest =>
    match assocGet o.proprietary spAddressKey with
    | some value =>
      match deserializeSpAddress value with
      | some spa => do
        let tail ← collectSpAddresses rest
        pure (spa :: tail)
      | none => .error .BadAddressRecord
    | none => collectSpAddresses rest

/-- The rewriting pass of `fill_sp_outputs`: walk the
unsigned-transaction outputs in order against the PSBT output slots;
for a slot carrying the address record, consume the next key of that
address's list and replace the script pubkey by
`new_p2tr_tweaked(key)`; a slot beyond the PSBT output list is an
index panic (`psbt.outputs[i]`).  Returns the rewritten outputs and
the remaining key lists. -/
def fillOutputsLoop (m : List (SpAddress × List Nat)) :
    List TxOut → List PsbtOutput →
    Except SpErr (List TxOut × List (SpAddress × List Nat))
  | [], _ => .ok ([], m)
  | _ :: _, [] => .error .IndexPanic
  | out :: touts, od :: pouts =>
    match assocGet od.proprietary spAddressKey with
    | some value =>
      match deserializeSpAddress value with
      | some spa =>
        match assocGet m spa with
        | some keys =>
          match keys with
          | [] => .error .MissingKeyForAddress
          | k :: keyrest => do
            let (outs, m') ←
              fillOutputsLoop (assocUpdate m spa (fun _ => keyrest)) touts pouts
            pure ({ out with script_pubkey := p2trScript k } :: outs, m')
        | none => .error .AddressNotFound
      | none => .error .BadAddressRecord
    | none => do
      let (outs, m') ← fillOutputsLoop m touts pouts
      pure (out :: outs, m')

/-- `fill_sp_outputs(psbt)`: requires a secret spend key; collects the
input private keys and the ordered outpoints, computes the partial
secret, derives the recipient key lists, rewrites the placeholder
scripts, and finally checks that every key list was consumed
(`debug_assert!(xonlypubkeys.is_empty())`, debug-profile semantics,
modelled as `AssertionFailed`). -/
def fill_sp_outputs (lib : SpLib) (c : SpClient) (psbt : Psbt) :
    Except SpErr Psbt := do
  let b_spend ←
    match c.spend_key with
    | .Secret key => pure key
    | .Public _ => Except.error .WatchOnly
  let input_privkeys ← collectInputPrivkeys b_spend psbt.inputs 0
  let outpoints : List (Nat × Nat) :=
    psbt.unsigned_tx.input.map
      (fun i => (i.previous_output.txid, i.previous_output.vout))
  let secret ← lib.calculate_partial_secret input_privkeys outpoints
  let sp_addresses ← collectSpAddresses psbt.outputs
  let sp_address2xonlypubkeys ← lib.generate_recipient_pubkeys sp_addresses secret
  let (new_output, leftover) ←
    fillOutputsLoop sp_address2xonlypubkeys psbt.unsigned_tx.output psbt.outputs
  if leftover.all (fun q => q.2.isEmpty) then
    pure { psbt with unsigned_tx := { psbt.unsigned_tx with output := new_output } }
  else
    Except.error .AssertionFailed

/-! # Theorems

First the shared helper lemmas, then one theorem per claim (with its
witness or counterexample where called for). -/

/-! ## Association-list lemmas -/

theorem assocGet_update {α β : Type} [DecidableEq α] (m : List (α × β)) (k k' : α)
    (f : β → β) :
    assocGet (assocUpdate m k f) k' =
      if k' = k then (assocGet m k).map f else assocGet m k' := by
  induction m with
  | nil => simp [assocGet, assocUpdate]
  | cons p rest ih =>
    simp only [assocUpdate, List.map_cons] at ih ⊢
    by_cases h1 : p.1 = k
    · by_cases h2 : k' = k
      · subst h2
        simp [assocGet, h1, ih]
      · simp [assocGet, h1, h2, ih, Ne.symm h2]
    · by_cases h2 : p.1 = k'
      · subst h2
        simp [assocGet, h1, fun h : p.1 = k => h1 h, ih]
      · simp [assocGet, h1, h2, ih]

/-! ## Claim C5: the per-output state machine -/

/-- The outpoint is owned and currently `Unspent`. -/
def ownedUnspent (owned : OwnedMap) (op : OutPoint) : Prop :=
  ∃ o, assocGet owned op = some o ∧ o.spend_status = .Unspent

/-- One call of the two marking mutators. -/
inductive MarkCall where
  | spent (outpoint : OutPoint) (txid : Nat)
  | mined (outpoint : OutPoint) (blkhash : Nat)

/-- The in-memory effect of one marking call: the updated map on
success, the unchanged map on a failure (the mutators only write
through `get_mut` after their checks pass). -/
def applyMarkCall (owned : OwnedMap) : MarkCall → OwnedMap
  | .spent op txid =>
    match mark_outpoint_spent owned op txid with
    | .ok m => m
    | .error _ => owned
  | .mined op blk =>
    match mark_outpoint_mined owned op blk with
    | .ok m => m
    | .error _ => owned

/-- The in-memory effect of a sequence of marking calls. -/
def applyMarkCalls (owned : OwnedMap) : List MarkCall → OwnedMap
  | [] => owned
  | c :: rest => applyMarkCalls (applyMarkCall owned c) rest

theorem applyMarkCall_preserves_mined (owned : OwnedMap) (c : MarkCall)
    (op : OutPoint) (o : OwnedOutput) (b : Nat)
    (hget : assocGet owned op = some o) (hst : o.spend_status = .Mined b) :
    assocGet (applyMarkCall owned c) op = some o := by
  cases c with
  | spent op' txid =>
    unfold applyMarkCall mark_outpoint_spent
    cases hg : assocGet owned op' with
    | none => simpa [hg] using hget
    | some o' =>
      cases hs : o'.spend_status <;> simp [hg, hs]
      · rw [assocGet_update]
        by_cases he : op = op'
        · subst he
          rw [hget] at hg
          cases hg
          rw [hst] at hs
          cases hs
        · simp [he, hget]
      · exact hget
      · exact hget
  | mined op' blk =>
    unfold applyMarkCall mark_outpoint_mined
    cases hg : assocGet owned op' with
    | none => simpa [hg] using hget
    | some o' =>
      cases hs : o'.spend_status <;> simp [hg, hs]
      · rw [assocGet_update]
        by_cases he : op = op'
        · subst he
          rw [hget] at hg
          cases hg
          rw [hst] at hs
          cases hs
        · simp [he, hget]
      · rw [assocGet_update]
        by_cases he : op = op'
        · subst he
          rw [hget] at hg
          cases hg
          rw [hst] at hs
          cases hs
        · simp [he, hget]
      · exact hget

theorem applyMarkCalls_preserves_mined (calls : List MarkCall) (owned : OwnedMap)
    (op : OutPoint) (o : OwnedOutput) (b : Nat)
    (hget : assocGet owned op = some o) (hst : o.spend_status = .Mined b) :
    assocGet (applyMarkCalls owned calls) op = some o := by
  induction calls generalizing owned with
  | nil => exact hget
  | cons c rest ih =>
    exact ih _ (applyMarkCall_preserves_mined owned c op o b hget hst)

/-- Claim C5: `mark_outpoint_spent` succeeds exactly when the output is
owned and `Unspent` (and fails `AlreadySpent`/`NotFound` otherwise),
so marking the same outpoint spent twice always fails;
`mark_outpoint_mined` succeeds exactly when the output is owned and
its status is not `Mined`; and once an output is `Mined`, no sequence
of marking calls changes its entry at all. -/
theorem owned_output_state_machine :
    (∀ owned op txid,
      (∃ m, mark_outpoint_spent owned op txid = .ok m) ↔ ownedUnspent owned op)
    ∧ (∀ owned op blk,
      (∃ m, mark_outpoint_mined owned op blk = .ok m) ↔
        ∃ o, assocGet owned op = some o ∧ ∀ b, o.spend_status ≠ .Mined b)
    ∧ (∀ owned op txid m txid',
      mark_outpoint_spent owned op txid = .ok m →
        ∃ e, mark_outpoint_spent m op txid' = .error e)
    ∧ (∀ owned calls op o b,
      assocGet owned op = some o → o.spend_status = .Mined b →
        assocGet (applyMarkCalls owned calls) op = some o) := by
  refine ⟨?_, ?_, ?_, ?_⟩
  · intro owned op txid
    unfold mark_outpoint_spent ownedUnspent
    cases hg : assocGet owned op with
    | none => simp [hg]
    | some o => cases hs : o.spend_status <;> simp [hg, hs]
  · intro owned op blk
    unfold mark_outpoint_mined
    cases hg : assocGet owned op with
    | none => simp [hg]
    | some o => cases hs : o.spend_status <;> simp [hg, hs]
  · intro owned op txid m txid' hok
    unfold mark_outpoint_spent at hok ⊢
    cases hg : assocGet owned op with
    | none => simp [hg] at hok
    | some o =>
      cases hs : o.spend_status <;> simp [hg, hs] at hok
      rw [← hok, assocGet_update]
      simp [hg]
  · intro owned calls op o b hget hst
    exact applyMarkCalls_preserves_mined calls owned op o b hget hst

/-! ## Claim C1: `mark_transaction_inputs_as_spent` is not atomic -/

/-- The map with the entries of `l` flipped to `Spent txid` (all other
entries and all other fields untouched). -/
def flipSpent (txid : Nat) (l : List OutPoint) (owned : OwnedMap) : OwnedMap :=
  owned.map (fun p =>
    if p.1 ∈ l then (p.1, { p.2 with spend_status := .Spent txid }) else p)

theorem flipSpent_nil (txid : Nat) (owned : OwnedMap) :
    flipSpent txid [] owned = owned := by
  simp [flipSpent]

theorem flipSpent_update (txid : Nat) (op : OutPoint) (rest : List OutPoint)
    (owned : OwnedMap) :
    flipSpent txid rest
        (assocUpdate owned op (fun x => { x with spend_status := .Spent txid })) =
      flipSpent txid (op :: rest) owned := by
  simp only [flipSpent, assocUpdate, List.map_map]
  refine List.map_congr_left ?_
  intro p _
  by_cases h1 : p.1 = op
  · by_cases h2 : p.1 ∈ rest <;> simp [Function.comp, h1, h2]
  · by_cases h2 : p.1 ∈ rest <;> simp [Function.comp, h1, h2]

theorem mark_outpoint_spent_eq_ok (owned : OwnedMap) (op : OutPoint) (txid : Nat)
    (m : OwnedMap) :
    mark_outpoint_spent owned op txid = .ok m ↔
      ownedUnspent owned op ∧
        m = assocUpdate owned op (fun x => { x with spend_status := .Spent txid }) := by
  unfold mark_outpoint_spent ownedUnspent
  cases hg : assocGet owned op with
  | none => simp [hg]
  | some o =>
    cases hs : o.spend_status <;> simp [hg, hs, eq_comm]

theorem not_ownedUnspent_update_self (owned : OwnedMap) (op : OutPoint) (txid : Nat) :
    ¬ ownedUnspent
        (assocUpdate owned op (fun x => { x with spend_status := .Spent txid })) op := by
  unfold ownedUnspent
  rw [assocGet_update]
  cases assocGet owned op <;> simp

theorem ownedUnspent_update_ne (owned : OwnedMap) (op q : OutPoint) (txid : Nat)
    (h : q ≠ op) :
    ownedUnspent
        (assocUpdate owned op (fun x => { x with spend_status := .Spent txid })) q ↔
      ownedUnspent owned q := by
  unfold ownedUnspent
  rw [assocGet_update]
  simp [h]

theorem markInputsLoop_spec (txid : Nat) (l : List OutPoint) (owned : OwnedMap) :
    match markInputsLoop owned txid l with
    | (m, none) =>
        l.Nodup ∧ (∀ op ∈ l, ownedUnspent owned op) ∧ m = flipSpent txid l owned
    | (m, some _) =>
        ∃ l₁ op l₂, l = l₁ ++ op :: l₂ ∧ l₁.Nodup ∧
          (∀ p ∈ l₁, ownedUnspent owned p) ∧
          ¬ ownedUnspent (flipSpent txid l₁ owned) op ∧
          m = flipSpent txid l₁ owned := by
  induction l generalizing owned with
  | nil => simp [markInputsLoop, flipSpent_nil]
  | cons op rest ih =>
    unfold markInputsLoop
    cases hmk : mark_outpoint_spent owned op txid with
    | error e =>
      simp only []
      refine ⟨[], op, rest, rfl, List.nodup_nil, by simp, ?_, (flipSpent_nil txid owned).symm⟩
      rw [flipSpent_nil]
      intro hun
      have hok := (mark_outpoint_spent_eq_ok owned op txid
        (assocUpdate owned op (fun x => { x with spend_status := .Spent txid }))).mpr
        ⟨hun, rfl⟩
      rw [hmk] at hok
      cases hok
    | ok owned' =>
      obtain ⟨hun, howned'⟩ := (mark_outpoint_spent_eq_ok owned op txid owned').mp hmk
      subst howned'
      have hloop := ih (assocUpdate owned op (fun x => { x with spend_status := .Spent txid }))
      cases hres : markInputsLoop
          (assocUpdate owned op (fun x => { x with spend_status := .Spent txid })) txid rest with
      | mk m err =>
        cases err with
        | none =>
          rw [hres] at hloop
          obtain ⟨hnd, hall, hm⟩ := hloop
          simp only [hres]
          have hopnot : op ∉ rest := by
            intro hmem
            exact not_ownedUnspent_update_self owned op txid (hall op hmem)
          refine ⟨List.nodup_cons.mpr ⟨hopnot, hnd⟩, ?_, ?_⟩
          · intro q hq
            rcases List.mem_cons.mp hq with hq | hq
            · exact hq ▸ hun
            · have hne : q ≠ op := by
                intro he
                exact hopnot (he ▸ hq)
              exact (ownedUnspent_update_ne owned op q txid hne).mp (hall q hq)
          · rw [hm, flipSpent_update]
        | some e =>
          rw [hres] at hloop
          obtain ⟨l₁, p, l₂, hsplit, hnd, hall, hnot, hm⟩ := hloop
          simp only [hres]
          have hopnot : op ∉ l₁ := by
            intro hmem
            exact not_ownedUnspent_update_self owned op txid (hall op hmem)
          refine ⟨op :: l₁, p, l₂, by rw [hsplit]; rfl,
            List.nodup_cons.mpr ⟨hopnot, hnd⟩, ?_, ?_, ?_⟩
          · intro q hq
            rcases List.mem_cons.mp hq with hq | hq
            · exact hq ▸ hun
            · have hne : q ≠ op := by
                intro he
                exact hopnot (he ▸ hq)
              exact (ownedUnspent_update_ne owned op q txid hne).mp (hall q hq)
          · rw [← flipSpent_update]
            exact hnot
          · rw [hm, flipSpent_update]

/-- Claim C1 (amended): `mark_transaction_inputs_as_spent` is not
atomic.  On success every input was owned and `Unspent`, they all flip
to `Spent(txid)` and the new spendable amount is emitted (and the
snapshot saved, the persistence collaborator modelled as succeeding);
but on an error the map is NOT left as it was: exactly the inputs
before the first failing one are already flipped in place (the loop
edits through `&mut self` and `?`-returns mid-iteration), and no
amount update is emitted. -/
theorem mark_transaction_inputs_partial (owned : OwnedMap) (tx : NkTx) :
    match mark_transaction_inputs_as_spent owned tx with
    | (m, none, amt) =>
        tx.input.Nodup ∧ (∀ op ∈ tx.input, ownedUnspent owned op) ∧
        m = flipSpent tx.txid tx.input owned ∧ amt = some (get_spendable_amt m)
    | (m, some _, amt) =>
        amt = none ∧
        ∃ l₁ op l₂, tx.input = l₁ ++ op :: l₂ ∧ l₁.Nodup ∧
          (∀ p ∈ l₁, ownedUnspent owned p) ∧
          ¬ ownedUnspent (flipSpent tx.txid l₁ owned) op ∧
          m = flipSpent tx.txid l₁ owned := by
  have hspec := markInputsLoop_spec tx.txid tx.input owned
  unfold mark_transaction_inputs_as_spent
  cases hres : markInputsLoop owned tx.txid tx.input with
  | mk m err =>
    rw [hres] at hspec
    cases err with
    | none =>
      obtain ⟨h1, h2, h3⟩ := hspec
      exact ⟨h1, h2, h3, rfl⟩
    | some e => exact ⟨rfl, hspec⟩

/-- An owned `Unspent` output at out-point `(1, 0)`. -/
def cexOwnedOutput : OwnedOutput :=
  { txoutpoint := ⟨1, 0⟩, blockheight := 100, tweak := List.replicate 32 2,
    amount := 100000, script := [81, 32, 7], label := none,
    spend_status := .Unspent }

/-- A store owning only `(1, 0)`. -/
def cexOwnedMap : OwnedMap := [(⟨1, 0⟩, cexOwnedOutput)]

/-- A transaction (txid 9) spending the owned `(1, 0)` and the foreign
`(2, 0)`. -/
def cexNkTx : NkTx := ⟨9, [⟨1, 0⟩, ⟨2, 0⟩]⟩

/-- Claim C1, counterexample: marking the inputs of `cexNkTx` fails
(`(2, 0)` is not owned), yet the in-memory map did not stay "exactly
as it was before the call": the owned input `(1, 0)` now has status
`Spent 9`. -/
theorem mark_transaction_inputs_not_atomic :
    (mark_transaction_inputs_as_spent cexOwnedMap cexNkTx).2.1 = some .NotFound
    ∧ (mark_transaction_inputs_as_spent cexOwnedMap cexNkTx).1 ≠ cexOwnedMap
    ∧ assocGet (mark_transaction_inputs_as_spent cexOwnedMap cexNkTx).1 ⟨1, 0⟩ =
        some { cexOwnedOutput with spend_status := .Spent 9 } := by
  refine ⟨by decide, by decide, by decide⟩

/-! ## Claim C2: `create_new_psbt` balance behaviour -/

/-- A mainnet receiver whose change address is the silent-payment
address `⟨false, 7⟩`. -/
def cexReceiver : Receiver := ⟨false, ⟨false, 7⟩⟩

/-- A mainnet wallet with a secret spend key and no owned outputs. -/
def cexClient : SpClient :=
  { label := "w", scan_sk := 11, spend_key := .Secret 3, mnemonic := none,
    sp_receiver := cexReceiver, birthday := 0, last_scan := 0, owned := [] }

/-- A recipient taking more (200000) than the chosen input funds
(100000). -/
def cexRecipOver : Recipient := ⟨.onchain false [0, 1], 200000, 1⟩

/-- A recipient leaving change 500, strictly positive and at most
`DUST_THRESHOLD`. -/
def cexRecipDust : Recipient := ⟨.onchain false [0, 1], 99500, 1⟩

/-- Claim C2, counterexample: with one 100000-sat input,
(a) a 200000-sat recipient does NOT fail with `InsufficientFunds`: the
`u64` change subtraction wraps and the call succeeds, appending a
change output of 2^64 − 100000 sats; (b) a 99500-sat recipient
(change 500, in `(0, DUST_THRESHOLD]`) does NOT fail with
`DustChange`: the call succeeds, simply without a change output. -/
theorem create_new_psbt_no_balance_errors :
    (create_new_psbt cexClient [cexOwnedOutput] [cexRecipOver]).map
        (fun p => p.unsigned_tx.output.map (fun o => o.value)) =
      .ok [200000, 18446744073709451616]
    ∧ (create_new_psbt cexClient [cexOwnedOutput] [cexRecipDust]).map
        (fun p => p.unsigned_tx.output.map (fun o => o.value)) =
      .ok [99500] := by
  refine ⟨rfl, rfl⟩

/-- Claim C2 (amended): `create_new_psbt` never fails for balance
reasons (there is no `InsufficientFunds` or `DustChange` failure in
the code).  Once the input and recipient loops succeed, the call
succeeds; the change amount is the WRAPPING `u64` subtraction
`total_in − total_out` (so an overspending recipient list yields a
huge change output instead of an error).  When the change amount
exceeds `DUST_THRESHOLD`, one synthetic change output carrying it is
appended together with a matching change `Recipient`
`{change_address, change_amt, 1}` (visible as the address record of
the final output slot); otherwise — including change in
`(0, DUST_THRESHOLD]` — nothing is appended and the call still
succeeds. -/
theorem create_new_psbt_change_spec (c : SpClient) (inputs : List OwnedOutput)
    (recipients : List Recipient) (tins : List TxIn)
    (datas : List (Bytes × Nat × Nat)) (tin : Nat) (touts : List TxOut) (tout : Nat)
    (hin : processInputs inputs = .ok (tins, datas, tin))
    (hout : processRecipients c.sp_receiver recipients = .ok (touts, tout)) :
    ∃ psbt, create_new_psbt c inputs recipients = .ok psbt
      ∧ (u64sub tin tout > DUST_THRESHOLD →
          psbt.unsigned_tx.output =
            touts ++ [⟨u64sub tin tout, placeholder_spk⟩]
          ∧ finalRecipients c.sp_receiver recipients (u64sub tin tout) =
              recipients ++ [⟨.sp c.sp_receiver.change_address, u64sub tin tout, 1⟩]
          ∧ psbt.outputs.getLast? =
              some ⟨[(spAddressKey, serializeSpAddress c.sp_receiver.change_address)]⟩
          ∧ psbt.outputs.length = recipients.length + 1)
      ∧ (u64sub tin tout ≤ DUST_THRESHOLD →
          psbt.unsigned_tx.output = touts
          ∧ psbt.outputs.length = recipients.length) := by
  unfold create_new_psbt
  rw [hin, hout]
  simp only [Bind.bind, Except.bind, pure, Except.pure]
  refine ⟨_, rfl, ?_, ?_⟩
  · intro hgt
    refine ⟨by simp [hgt], by simp [finalRecipients, hgt], ?_, ?_⟩
    · simp [finalRecipients, hgt, List.getLast?_concat]
    · simp [finalRecipients, hgt]
  · intro hle
    have hgt : ¬ u64sub tin tout > DUST_THRESHOLD := not_lt.mpr hle
    refine ⟨by simp [hgt], by simp [finalRecipients, hgt]⟩

/-- Claim C2, witness: the amended statement applied to the concrete
dust-change scenario (change 500 ≤ `DUST_THRESHOLD`): the call
succeeds without a change output. -/
theorem create_new_psbt_change_spec_witness :
    ∃ psbt, create_new_psbt cexClient [cexOwnedOutput] [cexRecipDust] = .ok psbt
      ∧ (u64sub 100000 99500 > DUST_THRESHOLD →
          psbt.unsigned_tx.output =
            [⟨99500, [0, 1]⟩] ++ [⟨u64sub 100000 99500, placeholder_spk⟩]
          ∧ finalRecipients cexClient.sp_receiver [cexRecipDust] (u64sub 100000 99500) =
              [cexRecipDust] ++
                [⟨.sp cexClient.sp_receiver.change_address, u64sub 100000 99500, 1⟩]
          ∧ psbt.outputs.getLast? =
              some ⟨[(spAddressKey,
                serializeSpAddress cexClient.sp_receiver.change_address)]⟩
          ∧ psbt.outputs.length = 1 + 1)
      ∧ (u64sub 100000 99500 ≤ DUST_THRESHOLD →
          psbt.unsigned_tx.output = [⟨99500, [0, 1]⟩]
          ∧ psbt.outputs.length = 1) :=
  create_new_psbt_change_spec cexClient [cexOwnedOutput] [cexRecipDust]
    [mkTxInFromOwned cexOwnedOutput]
    [([81, 32, 7], 100000, beBytesToNat (List.replicate 32 2))] 100000
    [⟨99500, [0, 1]⟩] 99500 rfl rfl

/-! ## Claim C4: PSBT augmentation -/

theorem scalarFromTweakHex_ok (b : Bytes) (s : Nat)
    (h : scalarFromTweakHex b = .ok s) : s = beBytesToNat b := by
  unfold scalarFromTweakHex at h
  by_cases h1 : b.length = 32 <;> simp [h1] at h
  by_cases h2 : beBytesToNat b < curveOrder <;> simp [h2] at h
  exact h.symm

theorem processInputs_ok_shape (inputs : List OwnedOutput) (tins : List TxIn)
    (datas : List (Bytes × Nat × Nat)) (tin : Nat)
    (h : processInputs inputs = .ok (tins, datas, tin)) :
    tins = inputs.map mkTxInFromOwned
    ∧ datas = inputs.map (fun i => (i.script, i.amount, beBytesToNat i.tweak)) := by
  induction inputs generalizing tins datas tin with
  | nil =>
    unfold processInputs at h
    cases h
    exact ⟨rfl, rfl⟩
  | cons i rest ih =>
    unfold processInputs at h
    cases hs : scalarFromTweakHex i.tweak with
    | error e => rw [hs] at h; cases h
    | ok s =>
      rw [hs] at h
      cases hr : processInputs rest with
      | error e =>
        rw [hr] at h
        cases h
      | ok triple =>
        obtain ⟨tins', datas', tot'⟩ := triple
        rw [hr] at h
        simp only [Bind.bind, Except.bind, pure, Except.pure, Except.ok.injEq,
          Prod.mk.injEq] at h
        obtain ⟨h1, h2, h3⟩ := h
        obtain ⟨ht, hd⟩ := ih tins' datas' tot' hr
        subst h1 h2 ht hd
        rw [scalarFromTweakHex_ok i.tweak s hs]
        exact ⟨rfl, rfl⟩

/-- Claim C4: every input slot of a PSBT built by `create_new_psbt`
carries `witness_utxo = TxOut(amount_i, script_i)` and the proprietary
tweak record holding the 32 big-endian bytes of input i's tweak
scalar; and the output slots are exactly the (possibly
change-extended) recipient list mapped to records: a slot whose
recipient address parses as a silent-payment address carries the
address record with that address, and a slot whose recipient is a
normal address carries no record at all. -/
theorem create_new_psbt_augmentation (c : SpClient) (inputs : List OwnedOutput)
    (recipients : List Recipient) (psbt : Psbt)
    (h : create_new_psbt c inputs recipients = .ok psbt) :
    psbt.inputs = inputs.map (fun i =>
      { witness_utxo := some ⟨i.amount, i.script⟩,
        proprietary := [(spTweakKey, natToBeBytes32 (beBytesToNat i.tweak))],
        tap_key_sig := none, final_script_witness := none })
    ∧ (∀ n, (natToBeBytes32 n).length = 32)
    ∧ ∃ recips',
        (recips' = recipients ∨
          ∃ camt, camt > DUST_THRESHOLD ∧
            recips' = recipients ++ [⟨.sp c.sp_receiver.change_address, camt, 1⟩])
        ∧ psbt.outputs = recips'.map (fun r =>
            match r.address with
            | .sp spa => ⟨[(spAddressKey, serializeSpAddress spa)]⟩
            | _ => defaultPsbtOutput) := by
  cases hpi : processInputs inputs with
  | error e =>
    unfold create_new_psbt at h
    rw [hpi] at h
    cases h
  | ok tripleIn =>
    obtain ⟨tins, datas, tin⟩ := tripleIn
    cases hpr : processRecipients c.sp_receiver recipients with
    | error e =>
      unfold create_new_psbt at h
      rw [hpi, hpr] at h
      cases h
    | ok pairOut =>
      obtain ⟨touts, tout⟩ := pairOut
      unfold create_new_psbt at h
      rw [hpi, hpr] at h
      simp only [Bind.bind, Except.bind, pure, Except.pure, Except.ok.injEq] at h
      subst h
      obtain ⟨-, hd⟩ := processInputs_ok_shape inputs tins datas tin hpi
      subst hd
      refine ⟨by simp [List.map_map], fun n => by simp [natToBeBytes32], ?_⟩
      refine ⟨finalRecipients c.sp_receiver recipients (u64sub tin tout), ?_, rfl⟩
      by_cases hgt : u64sub tin tout > DUST_THRESHOLD
      · exact Or.inr ⟨u64sub tin tout, hgt, by simp [finalRecipients, hgt]⟩
      · exact Or.inl (by simp [finalRecipients, hgt])

/-- A silent-payment recipient on the wallet's network asking for two
outputs. -/
def cexRecipSp : Recipient := ⟨.sp ⟨false, 3⟩, 40000, 2⟩

/-- An on-chain mainnet recipient. -/
def cexRecipOnchain : Recipient := ⟨.onchain false [0, 1], 30000, 1⟩

/-- Claim C4, witness: the augmentation invariant at a concrete build
with one input, one silent-payment recipient, one on-chain recipient
and an appended change output (change 30000 > `DUST_THRESHOLD`). -/
theorem create_new_psbt_augmentation_witness :
    ∃ p, create_new_psbt cexClient [cexOwnedOutput] [cexRecipSp, cexRecipOnchain]
        = .ok p
      ∧ (p.inputs = [cexOwnedOutput].map (fun i =>
          { witness_utxo := some ⟨i.amount, i.script⟩,
            proprietary := [(spTweakKey, natToBeBytes32 (beBytesToNat i.tweak))],
            tap_key_sig := none, final_script_witness := none })
        ∧ (∀ n, (natToBeBytes32 n).length = 32)
        ∧ ∃ recips',
            (recips' = [cexRecipSp, cexRecipOnchain] ∨
              ∃ camt, camt > DUST_THRESHOLD ∧
                recips' = [cexRecipSp, cexRecipOnchain] ++
                  [⟨.sp cexClient.sp_receiver.change_address, camt, 1⟩])
            ∧ p.outputs = recips'.map (fun r =>
                match r.address with
                | .sp spa => ⟨[(spAddressKey, serializeSpAddress spa)]⟩
                | _ => defaultPsbtOutput)) :=
  ⟨_, rfl, create_new_psbt_augmentation cexClient [cexOwnedOutput]
    [cexRecipSp, cexRecipOnchain] _ rfl⟩

/-! ## Claim C6: `fill_sp_outputs` key requirements -/

/-- The input's proprietary tweak record is absent or not exactly 32
bytes. -/
def tweakRecordBad (input : PsbtInput) : Prop :=
  assocGet input.proprietary spTweakKey = none ∨
    ∃ v, assocGet input.proprietary spTweakKey = some v ∧ v.length ≠ 32

/-- The failures of the tweak-collection loop of `fill_sp_outputs`:
a missing record, a record of the wrong length, a scalar out of range,
an invalid tweaked key. -/
def isTweakError : SpErr → Prop
  | .MissingTweak _ => True
  | .InvalidTweak _ => True
  | .ScalarOutOfRange => True
  | .InvalidSecretKey => True
  | _ => False

theorem collectInputPrivkeys_bad (b_spend : Nat) (l : List PsbtInput) (j : Nat)
    (input : PsbtInput) (hj : l.get? j = some input) (hbad : tweakRecordBad input) :
    ∀ i, ∃ e, collectInputPrivkeys b_spend l i = .error e ∧ isTweakError e := by
  induction l generalizing j with
  | nil => cases hj
  | cons hd rest ih =>
    intro i
    unfold collectInputPrivkeys
    cases hg : assocGet hd.proprietary spTweakKey with
    | none => exact ⟨.MissingTweak i, by simp [hg], trivial⟩
    | some tweak =>
      by_cases hlen : tweak.length = 32
      · cases j with
        | zero =>
          cases hj
          rcases hbad with hnone | ⟨v, hv, hvlen⟩
          · rw [hg] at hnone
            cases hnone
          · rw [hg] at hv
            cases hv
            exact absurd hlen hvlen
        | succ j' =>
          by_cases hsc : beBytesToNat tweak < curveOrder
          · by_cases hz : (b_spend + beBytesToNat tweak) % curveOrder = 0
            · exact ⟨.InvalidSecretKey, by simp [hg, hlen, hsc, hz], trivial⟩
            · obtain ⟨e, he, hte⟩ := ih j' hj (i + 1)
              refine ⟨e, ?_, hte⟩
              simp [hg, hlen, hsc, hz, he, Bind.bind, Except.bind]
          · exact ⟨.ScalarOutOfRange, by simp [hg, hlen, hsc], trivial⟩
      · exact ⟨.InvalidTweak i, by simp [hg, hlen], trivial⟩

/-- Claim C6: `fill_sp_outputs` fails `WatchOnly` for every PSBT when
the spend key is the `Public` variant; and with a `Secret` spend key
it fails with a tweak error (missing record, wrong length, bad
scalar, or invalid tweaked key — the loop stops at the first offender)
whenever some input's tweak record is absent or not exactly 32
bytes. -/
theorem fill_sp_outputs_key_requirements :
    (∀ (lib : SpLib) (c : SpClient) (psbt : Psbt) (k : Nat),
      c.spend_key = .Public k → fill_sp_outputs lib c psbt = .error .WatchOnly)
    ∧ (∀ (lib : SpLib) (c : SpClient) (psbt : Psbt) (key j : Nat)
        (input : PsbtInput),
      c.spend_key = .Secret key → psbt.inputs.get? j = some input →
      tweakRecordBad input →
        ∃ e, fill_sp_outputs lib c psbt = .error e ∧ isTweakError e) := by
  constructor
  · intro lib c psbt k hpub
    unfold fill_sp_outputs
    rw [hpub]
    rfl
  · intro lib c psbt key j input hsec hj hbad
    obtain ⟨e, he, hte⟩ := collectInputPrivkeys_bad key psbt.inputs j input hj hbad 0
    refine ⟨e, ?_, hte⟩
    unfold fill_sp_outputs
    rw [hsec]
    simp [he, Bind.bind, Except.bind, pure, Except.pure]

/-! ## Claims C8 and C10: the rewriting pass of `fill_sp_outputs` -/

/-- Symbolic execution of a successful `fill_sp_outputs` run: the
sequence of intermediate results it must have produced. -/
theorem fill_sp_outputs_ok_extract (lib : SpLib) (c : SpClient) (psbt p' : Psbt)
    (h : fill_sp_outputs lib c psbt = .ok p') :
    ∃ key ipks secret addrs m new leftover,
      c.spend_key = .Secret key
      ∧ collectInputPrivkeys key psbt.inputs 0 = .ok ipks
      ∧ lib.calculate_partial_secret ipks
          (psbt.unsigned_tx.input.map
            (fun i => (i.previous_output.txid, i.previous_output.vout))) = .ok secret
      ∧ collectSpAddresses psbt.outputs = .ok addrs
      ∧ lib.generate_recipient_pubkeys addrs secret = .ok m
      ∧ fillOutputsLoop m psbt.unsigned_tx.output psbt.outputs = .ok (new, leftover)
      ∧ leftover.all (fun q => q.2.isEmpty) = true
      ∧ p' = { psbt with unsigned_tx := { psbt.unsigned_tx with output := new } } := by
  unfold fill_sp_outputs at h
  cases hsk : c.spend_key with
  | Public k => rw [hsk] at h; cases h
  | Secret key =>
    rw [hsk] at h
    simp only [Bind.bind, Except.bind, pure, Except.pure] at h
    cases hc : collectInputPrivkeys key psbt.inputs 0 with
    | error e => rw [hc] at h; cases h
    | ok ipks =>
      simp only [hc] at h
      cases hps : lib.calculate_partial_secret ipks
          (psbt.unsigned_tx.input.map
            (fun i => (i.previous_output.txid, i.previous_output.vout))) with
      | error e => rw [hps] at h; cases h
      | ok secret =>
        simp only [hps] at h
        cases ha : collectSpAddresses psbt.outputs with
        | error e => rw [ha] at h; cases h
        | ok addrs =>
          simp only [ha] at h
          cases hg : lib.generate_recipient_pubkeys addrs secret with
          | error e => rw [hg] at h; cases h
          | ok m =>
            simp only [hg] at h
            cases hl : fillOutputsLoop m psbt.unsigned_tx.output psbt.outputs with
            | error e => rw [hl] at h; cases h
            | ok pr =>
              obtain ⟨new, leftover⟩ := pr
              simp only [hl] at h
              cases hall : leftover.all (fun q => q.2.isEmpty) with
              | false => rw [hall] at h; cases h
              | true =>
                simp only [hall, if_true, Except.ok.injEq] at h
                exact ⟨key, ipks, secret, addrs, m, new, leftover,
                  rfl, hc, hps, rfl, hg, hl, hall, h.symm⟩

/-- Claim C8: on every successful `fill_sp_outputs` the per-address
key lists handed back by `generate_recipient_pubkeys` are fully
consumed by the rewriting pass (every leftover list is empty); and if
the pass leaves any list non-empty, the call fails with the assertion
failure (`debug_assert!`, debug-profile semantics). -/
theorem fill_sp_outputs_consumes_all_keys :
    (∀ (lib : SpLib) (c : SpClient) (psbt p' : Psbt),
      fill_sp_outputs lib c psbt = .ok p' →
      ∃ key ipks secret addrs m new leftover,
        c.spend_key = .Secret key
        ∧ collectInputPrivkeys key psbt.inputs 0 = .ok ipks
        ∧ lib.calculate_partial_secret ipks
            (psbt.unsigned_tx.input.map
              (fun i => (i.previous_output.txid, i.previous_output.vout))) = .ok secret
        ∧ collectSpAddresses psbt.outputs = .ok addrs
        ∧ lib.generate_recipient_pubkeys addrs secret = .ok m
        ∧ fillOutputsLoop m psbt.unsigned_tx.output psbt.outputs = .ok (new, leftover)
        ∧ ∀ q ∈ leftover, q.2 = [])
    ∧ (∀ (lib : SpLib) (c : SpClient) (psbt : Psbt) (key secret : Nat)
        (ipks : List (Nat × Bool)) (addrs : List SpAddress)
        (m new_leftover_m : List (SpAddress × List Nat)) (new : List TxOut),
      c.spend_key = .Secret key →
      collectInputPrivkeys key psbt.inputs 0 = .ok ipks →
      lib.calculate_partial_secret ipks
        (psbt.unsigned_tx.input.map
          (fun i => (i.previous_output.txid, i.previous_output.vout))) = .ok secret →
      collectSpAddresses psbt.outputs = .ok addrs →
      lib.generate_recipient_pubkeys addrs secret = .ok m →
      fillOutputsLoop m psbt.unsigned_tx.output psbt.outputs = .ok (new, new_leftover_m) →
      (∃ q ∈ new_leftover_m, q.2 ≠ []) →
      fill_sp_outputs lib c psbt = .error .AssertionFailed) := by
  constructor
  · intro lib c psbt p' h
    obtain ⟨key, ipks, secret, addrs, m, new, leftover,
      hsk, hc, hps, ha, hg, hl, hall, hp⟩ := fill_sp_outputs_ok_extract lib c psbt p' h
    refine ⟨key, ipks, secret, addrs, m, new, leftover, hsk, hc, hps, ha, hg, hl, ?_⟩
    intro q hq
    have := List.all_eq_true.mp hall q hq
    simpa [List.isEmpty_iff] using this
  · intro lib c psbt key secret ipks addrs m leftover new hsk hc hps ha hg hl hne
    unfold fill_sp_outputs
    rw [hsk]
    simp only [Bind.bind, Except.bind, pure, Except.pure]
    simp only [hc, hps, ha, hg, hl]
    have hall : leftover.all (fun q => q.2.isEmpty) = false := by
      obtain ⟨q, hq, hqne⟩ := hne
      rcases hb : leftover.all (fun q => q.2.isEmpty) with _ | _
      · rfl
      · have := List.all_eq_true.mp hb q hq
        rw [List.isEmpty_iff] at this
        exact absurd this hqne
    rw [hall]
    rfl

theorem fillOutputsLoop_frame (touts : List TxOut) :
    ∀ (m : List (SpAddress × List Nat)) (pouts : List PsbtOutput)
      (new : List TxOut) (leftover : List (SpAddress × List Nat)),
      fillOutputsLoop m touts pouts = .ok (new, leftover) →
      new.length = touts.length
      ∧ (∀ j out out', touts.get? j = some out → new.get? j = some out' →
          out'.value = out.value
          ∧ ∀ od, pouts.get? j = some od →
              assocGet od.proprietary spAddressKey = none → out' = out) := by
  induction touts with
  | nil =>
    intro m pouts new leftover h
    simp only [fillOutputsLoop, Except.ok.injEq, Prod.mk.injEq] at h
    obtain ⟨hnew, -⟩ := h
    subst hnew
    refine ⟨rfl, ?_⟩
    intro j out out' hj
    cases hj
  | cons out touts ih =>
    intro m pouts new leftover h
    cases pouts with
    | nil =>
      simp only [fillOutputsLoop] at h
      cases h
    | cons od pouts =>
      simp only [fillOutputsLoop] at h
      cases hg : assocGet od.proprietary spAddressKey with
      | none =>
        simp only [hg] at h
        cases hr : fillOutputsLoop m touts pouts with
        | error e => rw [hr] at h; cases h
        | ok pr =>
          obtain ⟨outs, m'⟩ := pr
          simp only [hr, Bind.bind, Except.bind, pure, Except.pure, Except.ok.injEq,
            Prod.mk.injEq] at h
          obtain ⟨hnew, -⟩ := h
          obtain ⟨hlen, hpt⟩ := ih m pouts outs m' hr
          subst hnew
          refine ⟨by simp [hlen], ?_⟩
          intro j o o' hj hj'
          cases j with
          | zero =>
            cases hj
            cases hj'
            exact ⟨rfl, fun _ _ _ => rfl⟩
          | succ j' =>
            simp only [List.get?] at hj hj'
            exact hpt j' o o' hj hj'
      | some value =>
        simp only [hg] at h
        cases hd : deserializeSpAddress value with
        | none => rw [hd] at h; cases h
        | some spa =>
          simp only [hd] at h
          cases hm : assocGet m spa with
          | none => rw [hm] at h; cases h
          | some keys =>
            cases keys with
            | nil =>
              simp only [hm] at h
              cases h
            | cons k keyrest =>
              simp only [hm] at h
              cases hr : fillOutputsLoop (assocUpdate m spa (fun _ => keyrest))
                  touts pouts with
              | error e => rw [hr] at h; cases h
              | ok pr =>
                obtain ⟨outs, m'⟩ := pr
                simp only [hr, Bind.bind, Except.bind, pure, Except.pure,
                  Except.ok.injEq, Prod.mk.injEq] at h
                obtain ⟨hnew, -⟩ := h
                obtain ⟨hlen, hpt⟩ :=
                  ih (assocUpdate m spa (fun _ => keyrest)) pouts outs m' hr
                subst hnew
                refine ⟨by simp [hlen], ?_⟩
                intro j o o' hj hj'
                cases j with
                | zero =>
                  cases hj
                  cases hj'
                  refine ⟨rfl, ?_⟩
                  intro od' hod' hrecnone
                  cases hod'
                  rw [hg] at hrecnone
                  cases hrecnone
                | succ j' =>
                  simp only [List.get?] at hj hj'
                  exact hpt j' o o' hj hj'

/-- Claim C10: a successful `fill_sp_outputs` only rewrites the script
pubkeys of unsigned-transaction outputs whose slot carries the
proprietary address record: the PSBT per-input and per-output maps
(proprietary records included), the transaction inputs, version and
lock time, every output's value, and every output without the record
are unchanged. -/
theorem fill_sp_outputs_frame (lib : SpLib) (c : SpClient) (psbt p' : Psbt)
    (h : fill_sp_outputs lib c psbt = .ok p') :
    p'.inputs = psbt.inputs
    ∧ p'.outputs = psbt.outputs
    ∧ p'.unsigned_tx.input = psbt.unsigned_tx.input
    ∧ p'.unsigned_tx.version = psbt.unsigned_tx.version
    ∧ p'.unsigned_tx.lock_time = psbt.unsigned_tx.lock_time
    ∧ p'.unsigned_tx.output.length = psbt.unsigned_tx.output.length
    ∧ (∀ j out out', psbt.unsigned_tx.output.get? j = some out →
        p'.unsigned_tx.output.get? j = some out' →
        out'.value = out.value
        ∧ ∀ od, psbt.outputs.get? j = some od →
            assocGet od.proprietary spAddressKey = none → out' = out) := by
  obtain ⟨key, ipks, secret, addrs, m, new, leftover,
    hsk, hc, hps, ha, hg, hl, hall, hp⟩ := fill_sp_outputs_ok_extract lib c psbt p' h
  obtain ⟨hlen, hpt⟩ := fillOutputsLoop_frame psbt.unsigned_tx.output m psbt.outputs
    new leftover hl
  subst hp
  exact ⟨rfl, rfl, rfl, rfl, rfl, hlen, hpt⟩

/-- A concrete silent-payment recipient address. -/
def addrA : SpAddress := ⟨false, 3⟩

/-- A concrete instance of the external library: partial secret 1 and
one x-only key (7) per address occurrence. -/
def demoLib : SpLib :=
  { calculate_partial_secret := fun _ _ => .ok 1,
    generate_recipient_pubkeys := fun addrs _ =>
      .ok (addrs.map (fun a => (a, [7]))) }

/-- A transaction input spending out-point `(1, 0)`. -/
def fillTxIn : TxIn :=
  { previous_output := ⟨1, 0⟩, script_sig := [], sequence := 4294967295,
    witness := [] }

/-- An unsigned transaction with a placeholder silent-payment output
and a normal output. -/
def fillTx : Transaction :=
  { version := 2, lock_time := 0, input := [fillTxIn],
    output := [{ value := 40000, script_pubkey := placeholder_spk },
               { value := 1000, script_pubkey := [9, 9] }] }

/-- A PSBT input carrying a witness utxo and a 32-byte tweak record. -/
def fillInput : PsbtInput :=
  { witness_utxo := some { value := 100000, script_pubkey := [81, 32, 7] },
    proprietary := [(spTweakKey, List.replicate 32 2)],
    tap_key_sig := none, final_script_witness := none }

/-- A PSBT whose first output slot carries the address record for
`addrA` and whose second is a normal output. -/
def fillPsbt : Psbt :=
  { unsigned_tx := fillTx, inputs := [fillInput],
    outputs := [⟨[(spAddressKey, serializeSpAddress addrA)]⟩, ⟨[]⟩] }

/-- The result of the concrete fill: the placeholder script replaced
by `P2TR(7)`, everything else untouched. -/
def filledPsbt : Psbt :=
  { fillPsbt with unsigned_tx :=
    { fillTx with
      output := [{ value := 40000, script_pubkey := p2trScript 7 },
                 { value := 1000, script_pubkey := [9, 9] }] } }

/-- Claim C10, witness: the frame property at a concrete successful
fill (one silent-payment slot rewritten, one normal output and all
maps untouched). -/
theorem fill_sp_outputs_frame_witness :
    ∃ p', fill_sp_outputs demoLib cexClient fillPsbt = .ok p'
      ∧ (p'.inputs = fillPsbt.inputs
        ∧ p'.outputs = fillPsbt.outputs
        ∧ p'.unsigned_tx.input = fillPsbt.unsigned_tx.input
        ∧ p'.unsigned_tx.version = fillPsbt.unsigned_tx.version
        ∧ p'.unsigned_tx.lock_time = fillPsbt.unsigned_tx.lock_time
        ∧ p'.unsigned_tx.output.length = fillPsbt.unsigned_tx.output.length
        ∧ (∀ j out out', fillPsbt.unsigned_tx.output.get? j = some out →
            p'.unsigned_tx.output.get? j = some out' →
            out'.value = out.value
            ∧ ∀ od, fillPsbt.outputs.get? j = some od →
                assocGet od.proprietary spAddressKey = none → out' = out)) :=
  ⟨filledPsbt, by rfl,
    fill_sp_outputs_frame demoLib cexClient fillPsbt filledPsbt (by rfl)⟩

/-! ## Claims C3 and C7: `set_fees` -/

theorem finalizeInputs_fake (l : List PsbtInput) :
    finalizeInputs (l.map (fun i =>
        { i with tap_key_sig := some (List.replicate 64 1) })) =
      .ok (l.map (fun i =>
        { i with tap_key_sig := none,
                 final_script_witness := some [List.replicate 64 1] })) := by
  induction l with
  | nil => rfl
  | cons i rest ih =>
    simp only [List.map_cons, finalizeInputs]
    rw [ih]
    rfl

/-- The fake-signed transaction: every input's witness is the
one-element stack holding the 64-byte garbage signature. -/
theorem sign_psbt_fake_eq (psbt : Psbt) :
    sign_psbt_fake psbt = .ok (extract_tx { psbt with
      inputs := psbt.inputs.map (fun i =>
        { i with tap_key_sig := none,
                 final_script_witness := some [List.replicate 64 1] }) }) := by
  unfold sign_psbt_fake finalize_psbt
  simp only [Bind.bind, Except.bind, pure, Except.pure]
  rw [finalizeInputs_fake]

theorem vouts_get_some (vouts : List Nat) (pick : Nat) (hne : vouts ≠ []) :
    ∃ j, vouts.get? (pick % vouts.length) = some j := by
  have hlt : pick % vouts.length < vouts.length :=
    Nat.mod_lt _ (List.length_pos.mpr hne)
  exact ⟨vouts.get ⟨pick % vouts.length, hlt⟩, List.get?_eq_get hlt⟩

/-- The behaviour of `set_fees` past its three guards: nothing happens
when the fee is covered by the dust surplus; otherwise the chosen
payer output is reduced by `fee_amt − dust` — or the `Amount`
subtraction panics when that deduction exceeds the output's value. -/
theorem set_fees_run (psbt : Psbt) (fee_rate : Nat) (payer : AddrParse) (pick : Nat)
    (vouts : List Nat) (tin : Nat) (fake : Transaction) (dust fee_amt j : Nat)
    (hv : resolvePayerVouts psbt payer = .ok vouts)
    (hne : vouts ≠ [])
    (hlen : psbt.inputs.length = psbt.unsigned_tx.input.length)
    (hfund : iterFundingSum psbt.inputs = .ok tin)
    (hdusteq : dust = u64sub tin (totalOutputAmt psbt.unsigned_tx.output))
    (hdust : dust ≤ DUST_THRESHOLD)
    (hfake : sign_psbt_fake psbt = .ok fake)
    (hfee : fee_amt = fee_rate * (txVsize fake % U32) % U32)
    (hj : vouts.get? (pick % vouts.length) = some j) :
    (fee_amt ≤ dust → set_fees psbt fee_rate payer pick = .ok psbt)
    ∧ (fee_amt > dust →
        (psbt.unsigned_tx.output.get? j = none →
          set_fees psbt fee_rate payer pick = .error .IndexPanic)
        ∧ (∀ out, psbt.unsigned_tx.output.get? j = some out →
            (out.value < fee_amt - dust →
              set_fees psbt fee_rate payer pick = .error .AmountSubPanic)
            ∧ (fee_amt - dust ≤ out.value →
              set_fees psbt fee_rate payer pick = .ok
                { psbt with unsigned_tx := { psbt.unsigned_tx with
                    output := psbt.unsigned_tx.output.set j
                      { out with value := out.value - (fee_amt - dust) } } }))) := by
  have hrun : set_fees psbt fee_rate payer pick =
      (if fee_amt > dust then
        match psbt.unsigned_tx.output.get? j with
        | some output =>
          if output.value < fee_amt - dust then
            Except.error .AmountSubPanic
          else
            Except.ok { psbt with unsigned_tx := { psbt.unsigned_tx with
              output := psbt.unsigned_tx.output.set j
                { output with value := output.value - (fee_amt - dust) } } }
        | none => Except.error .IndexPanic
      else Except.ok psbt) := by
    unfold set_fees
    simp only [hv, Bind.bind, Except.bind]
    have hemp : vouts.isEmpty = false := by
      cases vouts with
      | nil => exact absurd rfl hne
      | cons a l => rfl
    rw [hemp]
    simp only [Bool.false_eq_true, if_false]
    rw [if_neg (by simp [hlen])]
    simp only [hfund]
    rw [if_neg (by rw [← hdusteq]; exact not_lt.mpr hdust)]
    simp only [hfake]
    rw [← hdusteq, ← hfee, hj]
    rfl
  constructor
  · intro hle
    rw [hrun, if_neg (not_lt.mpr hle)]
  · intro hgt
    constructor
    · intro hnone
      rw [hrun, if_pos hgt]
      simp only [hnone]
    · intro out hout
      constructor
      · intro hlt
        rw [hrun, if_pos hgt]
        simp only [hout]
        rw [if_pos hlt]
      · intro hge
        rw [hrun, if_pos hgt]
        simp only [hout]
        rw [if_neg (not_lt.mpr hge)]

theorem set_fees_empty_payer (psbt : Psbt) (fee_rate : Nat) (payer : AddrParse)
    (pick : Nat) (hv : resolvePayerVouts psbt payer = .ok []) :
    set_fees psbt fee_rate payer pick = .error .PayerNotInTx := by
  unfold set_fees
  simp [hv, Bind.bind, Except.bind]

theorem set_fees_missing_change (psbt : Psbt) (fee_rate : Nat) (payer : AddrParse)
    (pick : Nat) (vouts : List Nat) (tin : Nat)
    (hv : resolvePayerVouts psbt payer = .ok vouts)
    (hne : vouts ≠ [])
    (hlen : psbt.inputs.length = psbt.unsigned_tx.input.length)
    (hfund : iterFundingSum psbt.inputs = .ok tin)
    (hdust : u64sub tin (totalOutputAmt psbt.unsigned_tx.output) > DUST_THRESHOLD) :
    set_fees psbt fee_rate payer pick = .error .MissingChange := by
  unfold set_fees
  simp only [hv, Bind.bind, Except.bind]
  have hemp : vouts.isEmpty = false := by
    cases vouts with
    | nil => exact absurd rfl hne
    | cons a l => rfl
  rw [hemp]
  simp only [Bool.false_eq_true, if_false]
  rw [if_neg (by simp [hlen])]
  simp only [hfund]
  rw [if_pos hdust]

/-! ### Plain (unwrapped) sums, for the fee equation -/

/-- The plain sum of the funding-utxo values. -/
def fundingSumPlain (l : List PsbtInput) : Nat :=
  (l.map (fun i => (i.witness_utxo.getD ⟨0, []⟩).value)).sum

/-- The plain sum of the output values. -/
def outputSumPlain (l : List TxOut) : Nat := (l.map (fun o => o.value)).sum

theorem iterFundingSum_eq_plain (l : List PsbtInput) (s : Nat)
    (h : iterFundingSum l = .ok s) : s = fundingSumPlain l % U64 := by
  induction l generalizing s with
  | nil =>
    unfold iterFundingSum at h
    cases h
    simp [fundingSumPlain]
  | cons i rest ih =>
    unfold iterFundingSum at h
    cases hw : i.witness_utxo with
    | none => rw [hw] at h; cases h
    | some u =>
      simp only [hw] at h
      cases hr : iterFundingSum rest with
      | error e => rw [hr] at h; cases h
      | ok s' =>
        simp only [hr, Bind.bind, Except.bind, pure, Except.pure,
          Except.ok.injEq] at h
        have hs' := ih s' hr
        subst h
        rw [hs']
        simp only [fundingSumPlain, List.map_cons, List.sum_cons, hw, Option.getD_some]
        unfold u64add U64
        omega

theorem foldl_u64add (l : List TxOut) :
    ∀ acc, acc < U64 →
      l.foldl (fun sum o => u64add sum o.value) acc = (acc + outputSumPlain l) % U64 := by
  induction l with
  | nil =>
    intro acc hacc
    simp [outputSumPlain, Nat.mod_eq_of_lt hacc]
  | cons o rest ih =>
    intro acc hacc
    simp only [List.foldl_cons]
    rw [ih (u64add acc o.value) (by unfold u64add U64; omega)]
    simp only [outputSumPlain, List.map_cons, List.sum_cons]
    unfold u64add U64
    omega

theorem totalOutputAmt_eq_plain (l : List TxOut) :
    totalOutputAmt l = outputSumPlain l % U64 := by
  have h := foldl_u64add l 0 (by unfold U64; omega)
  simpa [totalOutputAmt] using h

theorem u64sub_of_le (a b : Nat) (hle : b ≤ a) (ha : a < U64) :
    u64sub a b = a - b := by
  unfold u64sub U64 at *
  omega

theorem outputSumPlain_set (l : List TxOut) (j : Nat) (out x : TxOut)
    (h : l.get? j = some out) :
    outputSumPlain (l.set j x) + out.value = outputSumPlain l + x.value := by
  induction l generalizing j with
  | nil => cases h
  | cons o rest ih =>
    cases j with
    | zero =>
      cases h
      simp only [List.set, outputSumPlain, List.map_cons, List.sum_cons]
      omega
    | succ j' =>
      simp only [List.get?] at h
      have hrec := ih j' h
      simp only [List.set, outputSumPlain, List.map_cons, List.sum_cons] at hrec ⊢
      omega

/-- Claim C3 (amended): the behaviour of `set_fees`.
(1) An empty resolved payer set fails `PayerNotInTx` (checked first).
(2) `dust > DUST_THRESHOLD` — with `dust` the code's wrapping `u64`
subtraction `Σ in − Σ out`, so also when the outputs exceed the
inputs — fails `MissingChange`.
(3) When `fee_amt = fee_rate · vsize(fake-signed tx) ≤ dust` (both as
the code computes them) the PSBT is returned entirely unchanged.
(4) When `fee_amt > dust`, PROVIDED the deduction `fee_amt − dust`
does not exceed the randomly chosen payer output's value, exactly
that one output is reduced by `fee_amt − dust` and no other slot of
the PSBT changes; and whenever the plain sums do not wrap, the fee
equation `Σ in − Σ out' = fee_amt` holds afterwards.  (When the
deduction exceeds the chosen output's value the `Amount` subtraction
panics instead — the amendment the counterexample forces.) -/
theorem set_fees_spec :
    (∀ (psbt : Psbt) (fee_rate : Nat) (payer : AddrParse) (pick : Nat),
      resolvePayerVouts psbt payer = .ok [] →
      set_fees psbt fee_rate payer pick = .error .PayerNotInTx)
    ∧ (∀ (psbt : Psbt) (fee_rate : Nat) (payer : AddrParse) (pick : Nat)
        (vouts : List Nat) (tin : Nat),
      resolvePayerVouts psbt payer = .ok vouts → vouts ≠ [] →
      psbt.inputs.length = psbt.unsigned_tx.input.length →
      iterFundingSum psbt.inputs = .ok tin →
      u64sub tin (totalOutputAmt psbt.unsigned_tx.output) > DUST_THRESHOLD →
      set_fees psbt fee_rate payer pick = .error .MissingChange)
    ∧ (∀ (psbt : Psbt) (fee_rate : Nat) (payer : AddrParse) (pick : Nat)
        (vouts : List Nat) (tin : Nat) (fake : Transaction),
      resolvePayerVouts psbt payer = .ok vouts → vouts ≠ [] →
      psbt.inputs.length = psbt.unsigned_tx.input.length →
      iterFundingSum psbt.inputs = .ok tin →
      u64sub tin (totalOutputAmt psbt.unsigned_tx.output) ≤ DUST_THRESHOLD →
      sign_psbt_fake psbt = .ok fake →
      fee_rate * (txVsize fake % U32) % U32 ≤
        u64sub tin (totalOutputAmt psbt.unsigned_tx.output) →
      set_fees psbt fee_rate payer pick = .ok psbt)
    ∧ (∀ (psbt : Psbt) (fee_rate : Nat) (payer : AddrParse) (pick : Nat)
        (vouts : List Nat) (tin : Nat) (fake : Transaction) (j : Nat) (out : TxOut),
      resolvePayerVouts psbt payer = .ok vouts → vouts ≠ [] →
      psbt.inputs.length = psbt.unsigned_tx.input.length →
      iterFundingSum psbt.inputs = .ok tin →
      u64sub tin (totalOutputAmt psbt.unsigned_tx.output) ≤ DUST_THRESHOLD →
      sign_psbt_fake psbt = .ok fake →
      fee_rate * (txVsize fake % U32) % U32 >
        u64sub tin (totalOutputAmt psbt.unsigned_tx.output) →
      vouts.get? (pick % vouts.length) = some j →
      psbt.unsigned_tx.output.get? j = some out →
      fee_rate * (txVsize fake % U32) % U32 -
        u64sub tin (totalOutputAmt psbt.unsigned_tx.output) ≤ out.value →
      set_fees psbt fee_rate payer pick = .ok
        { psbt with unsigned_tx := { psbt.unsigned_tx with
            output := psbt.unsigned_tx.output.set j
              { out with value := out.value -
                (fee_rate * (txVsize fake % U32) % U32 -
                  u64sub tin (totalOutputAmt psbt.unsigned_tx.output)) } } }
      ∧ (fundingSumPlain psbt.inputs < U64 →
         outputSumPlain psbt.unsigned_tx.output ≤ fundingSumPlain psbt.inputs →
         outputSumPlain (psbt.unsigned_tx.output.set j
             { out with value := out.value -
               (fee_rate * (txVsize fake % U32) % U32 -
                 u64sub tin (totalOutputAmt psbt.unsigned_tx.output)) })
           + fee_rate * (txVsize fake % U32) % U32
           = fundingSumPlain psbt.inputs)) := by
  refine ⟨set_fees_empty_payer, set_fees_missing_change, ?_, ?_⟩
  · intro psbt fee_rate payer pick vouts tin fake hv hne hlen hfund hdust hfake hle
    obtain ⟨j, hj⟩ := vouts_get_some vouts pick hne
    exact (set_fees_run psbt fee_rate payer pick vouts tin fake _ _ j hv hne hlen
      hfund rfl hdust hfake rfl hj).1 hle
  · intro psbt fee_rate payer pick vouts tin fake j out hv hne hlen hfund hdust
      hfake hgt hj hout hfit
    have hrun := (set_fees_run psbt fee_rate payer pick vouts tin fake _ _ j hv hne
      hlen hfund rfl hdust hfake rfl hj).2 hgt
    refine ⟨((hrun.2 out hout).2 hfit), ?_⟩
    intro hIn hOut
    have htin : tin = fundingSumPlain psbt.inputs := by
      rw [iterFundingSum_eq_plain psbt.inputs tin hfund, Nat.mod_eq_of_lt hIn]
    have htout : totalOutputAmt psbt.unsigned_tx.output =
        outputSumPlain psbt.unsigned_tx.output := by
      rw [totalOutputAmt_eq_plain, Nat.mod_eq_of_lt (lt_of_le_of_lt hOut hIn)]
    have hdusteq : u64sub tin (totalOutputAmt psbt.unsigned_tx.output) =
        fundingSumPlain psbt.inputs - outputSumPlain psbt.unsigned_tx.output := by
      rw [htin, htout]
      exact u64sub_of_le _ _ hOut hIn
    have hsum := outputSumPlain_set psbt.unsigned_tx.output j out
      { out with value := out.value -
        (fee_rate * (txVsize fake % U32) % U32 -
          u64sub tin (totalOutputAmt psbt.unsigned_tx.output)) } hout
    dsimp only at hsum
    rw [hdusteq] at hfit hgt hsum ⊢
    omega

/-- The transaction of the fee counterexamples: one input spending
`(1, 0)`, one 5-sat output with script `[0]`. -/
def cexFeeTx : Transaction :=
  { version := 2, lock_time := 0, input := [fillTxIn],
    output := [{ value := 5, script_pubkey := [0] }] }

/-- The PSBT input funding `cexFeeTx` with 5 sats. -/
def cexFeeInput : PsbtInput :=
  { witness_utxo := some { value := 5, script_pubkey := [] },
    proprietary := [], tap_key_sig := none, final_script_witness := none }

/-- The fee counterexample PSBT: payer output worth 5 sats, dust 0. -/
def cexFeePsbt : Psbt :=
  { unsigned_tx := cexFeeTx, inputs := [cexFeeInput], outputs := [⟨[]⟩] }

/-- Claim C3, counterexample: a PSBT the claim calls accepted (payer
resolves to the non-empty `[0]`, dust `= 0 ≤ DUST_THRESHOLD`) with
`fee_amt = 1000 · 78 = 78000 > dust`, where `set_fees` does NOT
reduce a payer output: the deduction 78000 exceeds the payer output's
5 sats and the `Amount` subtraction panics (modelled
`AmountSubPanic`). -/
theorem set_fees_deduction_panics :
    resolvePayerVouts cexFeePsbt (.onchain false [0]) = .ok [0]
    ∧ iterFundingSum cexFeePsbt.inputs = .ok 5
    ∧ u64sub 5 (totalOutputAmt cexFeePsbt.unsigned_tx.output) = 0
    ∧ (sign_psbt_fake cexFeePsbt).map txVsize = .ok 78
    ∧ set_fees cexFeePsbt 1000 (.onchain false [0]) 0 = .error .AmountSubPanic :=
  ⟨rfl, rfl, rfl, rfl, rfl⟩

/-- Claim C7, counterexample: with the same accepted PSBT and
`fee_rate = 10` (`fee_amt = 780`), the payer output would fall below
zero (780 > 5) and the operation does NOT complete: the `Amount`
subtraction panics. -/
theorem set_fees_negative_payer_panics :
    (sign_psbt_fake cexFeePsbt).map txVsize = .ok 78
    ∧ u64sub 5 (totalOutputAmt cexFeePsbt.unsigned_tx.output) = 0
    ∧ set_fees cexFeePsbt 10 (.onchain false [0]) 0 = .error .AmountSubPanic :=
  ⟨rfl, rfl, rfl⟩

/-- Claim C7 (amended): the deduction step of `set_fees` has no dust
check and no re-pick: whenever `fee_amt − dust` is at most the chosen
payer output's value, the call completes without an error on exactly
that output — even when the remaining amount is below the dust
threshold or exactly zero.  (When the deduction exceeds the value,
the `Amount` subtraction panics — the amendment the counterexample
forces.) -/
theorem set_fees_below_dust_completes (psbt : Psbt) (fee_rate : Nat)
    (payer : AddrParse) (pick : Nat) (vouts : List Nat) (tin : Nat)
    (fake : Transaction) (j : Nat) (out : TxOut)
    (hv : resolvePayerVouts psbt payer = .ok vouts)
    (hne : vouts ≠ [])
    (hlen : psbt.inputs.length = psbt.unsigned_tx.input.length)
    (hfund : iterFundingSum psbt.inputs = .ok tin)
    (hdust : u64sub tin (totalOutputAmt psbt.unsigned_tx.output) ≤ DUST_THRESHOLD)
    (hfake : sign_psbt_fake psbt = .ok fake)
    (hgt : fee_rate * (txVsize fake % U32) % U32 >
      u64sub tin (totalOutputAmt psbt.unsigned_tx.output))
    (hj : vouts.get? (pick % vouts.length) = some j)
    (hout : psbt.unsigned_tx.output.get? j = some out)
    (hfit : fee_rate * (txVsize fake % U32) % U32 -
      u64sub tin (totalOutputAmt psbt.unsigned_tx.output) ≤ out.value) :
    set_fees psbt fee_rate payer pick = .ok
      { psbt with unsigned_tx := { psbt.unsigned_tx with
          output := psbt.unsigned_tx.output.set j
            { out with value := out.value -
              (fee_rate * (txVsize fake % U32) % U32 -
                u64sub tin (totalOutputAmt psbt.unsigned_tx.output)) } } } :=
  ((set_fees_run psbt fee_rate payer pick vouts tin fake _ _ j hv hne hlen hfund
    rfl hdust hfake rfl hj).2 hgt).2 out hout |>.2 hfit

/-- The fee witness PSBT: payer output worth 1000 sats, dust 0. -/
def feeOkTx : Transaction :=
  { version := 2, lock_time := 0, input := [fillTxIn],
    output := [{ value := 1000, script_pubkey := [0] }] }

/-- The funding input of `feeOkTx`. -/
def feeOkInput : PsbtInput :=
  { witness_utxo := some { value := 1000, script_pubkey := [] },
    proprietary := [], tap_key_sig := none, final_script_witness := none }

/-- The witness PSBT for the below-dust completion. -/
def feeOkPsbt : Psbt :=
  { unsigned_tx := feeOkTx, inputs := [feeOkInput], outputs := [⟨[]⟩] }

/-- Claim C7, witness: at `fee_rate = 10` the fee is 780, the payer
output drops from 1000 to 220 — strictly below `DUST_THRESHOLD` — and
the call still completes without an error. -/
theorem set_fees_below_dust_completes_witness :
    set_fees feeOkPsbt 10 (.onchain false [0]) 0 = .ok
      { feeOkPsbt with unsigned_tx := { feeOkTx with
          output := [{ value := 220, script_pubkey := [0] }] } }
    ∧ 220 < DUST_THRESHOLD :=
  ⟨set_fees_below_dust_completes feeOkPsbt 10 (.onchain false [0]) 0 [0] 1000 _ 0
    { value := 1000, script_pubkey := [0] } rfl (by decide) rfl rfl (by decide) rfl
    (by decide) rfl rfl (by decide), by decide⟩

/-! ## Claim C9: `reset_from_blockheight` -/

/-- Claim C9: `reset_from_blockheight(h)` keeps exactly the owned
entries with `blockheight ≤ h` — each kept entry verbatim, its
`spend_status` and all other fields untouched — drops the rest, and
sets `last_scan` to `h`; no other wallet field changes. -/
theorem reset_from_blockheight_spec (c : SpClient) (h : Nat) :
    (reset_from_blockheight c h).last_scan = h
    ∧ (∀ p : OutPoint × OwnedOutput,
        p ∈ (reset_from_blockheight c h).owned ↔
          p ∈ c.owned ∧ p.2.blockheight ≤ h)
    ∧ (reset_from_blockheight c h).birthday = c.birthday
    ∧ (reset_from_blockheight c h).spend_key = c.spend_key
    ∧ (reset_from_blockheight c h).scan_sk = c.scan_sk
    ∧ (reset_from_blockheight c h).label = c.label := by
  refine ⟨rfl, ?_, rfl, rfl, rfl, rfl⟩
  intro p
  simp [reset_from_blockheight, List.mem_filter]

end SpBackend
